import Mathlib

/-!
# Verification of the NetworkDiagnosisTool path-probe engine

A shallow embedding of the core of the `NetworkDiagnosisTool` repository:

* `lib/traceroute.js` (`runTraceroute`, including the per-line output
  classifier of its `probeHop` closure),
* `lib/mtr.js` (`executePing` and the cycle-based statistics aggregator
  `runMtrCycles`),
* the destination-repair step of `index.js` (`NetworkDiagnosisTool.run`).

Modelling conventions:

* JavaScript numbers that hold RTT samples, sums, averages and loss
  percentages are modelled as exact rationals (`ℚ`); `Math.sqrt` is modelled
  as `Real.sqrt`, so standard deviations live in `ℝ`.  The running
  `stat.stdev` field of the source is stored in squared form
  (`HopStat.stdevSq : ℚ`) so that the state stays decidable; every place the
  source reads `stat.stdev` the embedding reads `Real.sqrt stdevSq`.
* `x.toFixed(1)` followed by `parseFloat` is modelled as rounding to one
  decimal digit (`round1` on `ℚ`, `round1r` on `ℝ`); all values involved are
  nonnegative, where JavaScript's rounding agrees with `round`.
* External processes are modelled by a `RawOutcome`: either the accumulated
  stdout text together with the exit code, or a spawn failure (the `error`
  event).  The raw text handed to a probe is an arbitrary input of the model.
* Promise concurrency: each hop's statistics record is owned by exactly one
  task per cycle, and cycles are joined by `Promise.all`, so a cycle is
  modelled as a pure map over the statistics list and the run as sequential
  iteration of cycles.  The inter-cycle delay has no observable effect in
  this model and is dropped.
* JavaScript regular expressions used by the source are embedded as
  deterministic character-list matchers.  Each of the regexes involved is
  deterministic in the sense that greedy matching without backtracking is
  exhaustive (every quantified atom is followed by an atom it cannot
  overlap), so the matchers below implement exactly the leftmost-match
  semantics of the source patterns.  `\s` is modelled by the six ASCII
  whitespace characters.
-/

namespace NetDiag

/-- The outcome of spawning one external `ping` process: either the collected
stdout text plus the process exit code, or a failure to start (the `error`
event of `child_process.spawn`). -/
inductive RawOutcome where
  | output (raw : String) (exitCode : ℤ)
  | startFailure
deriving DecidableEq

/-- Result of `executePing` in `lib/mtr.js`: `{alive: boolean, time: number|null}`. -/
structure PingRes where
  alive : Bool
  time : Option ℚ
deriving DecidableEq

/-- The six ASCII characters matched by JavaScript `\s` (the model's scope for
whitespace; real inputs contain no exotic Unicode spaces). -/
def isWsChar (c : Char) : Bool :=
  c == ' ' || c == '\t' || c == '\n' || c == '\r' || c == '\x0b' || c == '\x0c'

/-- The leading character class `([<>=]|\s)` of the RTT regex in `executePing`. -/
def isDelimChar (c : Char) : Bool :=
  c == '<' || c == '>' || c == '=' || isWsChar c

/-- Numeric value of a digit string (the integer part of `parseFloat`). -/
def digitsToNat (l : List Char) : ℕ :=
  l.foldl (fun n c => 10 * n + (c.toNat - '0'.toNat)) 0

/-- Exact value of `parseFloat` on a captured string `ds ++ fs` where `ds` is
the integer digit run and `fs` is either empty or a dot followed by the
fraction digit run. -/
def msVal (ds fs : List Char) : ℚ :=
  (digitsToNat ds : ℚ) +
    (match fs with
     | '.' :: fs' => (digitsToNat fs' : ℚ) / (10 : ℚ) ^ fs'.length
     | _ => 0)

/-- Attempt to match the RTT regex `([<>=]|\s)(\d+(?:\.\d+)?)\s*ms` (flag `i`)
of `executePing` at the start of the character list, returning the captured
millisecond value.  Greedy matching is exhaustive here: the digit runs, the
optional fraction and the whitespace run are each followed by a character
they cannot contain, so no backtracking can succeed where this matcher
fails. -/
def matchMsAt : List Char → Option ℚ
  | [] => none
  | c :: rest =>
    if isDelimChar c then
      let ds := rest.takeWhile Char.isDigit
      let r1 := rest.dropWhile Char.isDigit
      if ds.isEmpty then none
      else
        let fr : List Char × List Char :=
          match r1 with
          | '.' :: r2 =>
            let fs := r2.takeWhile Char.isDigit
            if fs.isEmpty then ([], r1) else ('.' :: fs, r2.dropWhile Char.isDigit)
          | _ => ([], r1)
        match fr.2.dropWhile isWsChar with
        | m :: s :: _ =>
          if (m == 'm' || m == 'M') && (s == 's' || s == 'S') then
            some (msVal ds fr.1)
          else none
        | _ => none
    else none

/-- Leftmost match of the RTT regex over the whole text (`output.match(...)`
in `executePing`): try every start position from the left. -/
def findMs : List Char → Option ℚ
  | [] => none
  | c :: rest =>
    match matchMsAt (c :: rest) with
    | some q => some q
    | none => findMs rest

/-- `executePing` of `lib/mtr.js`, classification part: the `close` handler
parses the collected stdout; any millisecond value anywhere marks the probe
alive with that RTT, otherwise dead.  The exit code passed to the handler is
never read.  The `error` handler resolves `{alive: false, time: null}`. -/
def executePing : RawOutcome → PingRes
  | .startFailure => ⟨false, none⟩
  | .output raw _ =>
    match findMs raw.toList with
    | some t => ⟨true, some t⟩
    | none => ⟨false, none⟩

/-- Declarative reading of one match of the RTT regex
`([<>=]|\s)(\d+(?:\.\d+)?)\s*ms` (flag `i`) at the start of `l`, capturing the
value `q`: a delimiter, a nonempty digit run, an optional fraction, optional
whitespace, then `m`/`M` followed by `s`/`S`. -/
def MsValAt (l : List Char) (q : ℚ) : Prop :=
  ∃ (d m s : Char) (ds fs ws tail : List Char),
    l = d :: (ds ++ fs ++ ws ++ m :: s :: tail) ∧
    isDelimChar d = true ∧
    ds ≠ [] ∧ (∀ c ∈ ds, c.isDigit = true) ∧
    (fs = [] ∨ ∃ fs', fs = '.' :: fs' ∧ fs' ≠ [] ∧ ∀ c ∈ fs', c.isDigit = true) ∧
    (∀ c ∈ ws, isWsChar c = true) ∧
    (m = 'm' ∨ m = 'M') ∧ (s = 's' ∨ s = 'S') ∧
    q = msVal ds fs

/-- `l` starts with a millisecond-value token of the RTT regex. -/
def MsAt (l : List Char) : Prop := ∃ q, MsValAt l q

/-! ## Traceroute discovery (`lib/traceroute.js`) -/

/-- Hexadecimal digit, the class `[0-9a-fA-F]` of the IP regex. -/
def isHexChar (c : Char) : Bool :=
  c.isDigit || ('a' ≤ c && c ≤ 'f') || ('A' ≤ c && c ≤ 'F')

/-- One repetition `[0-9a-fA-F]{0,4}:` of the IPv6 branch at the start of
`l`: up to four hex digits (greedily) followed by a colon.  Returns the
consumed characters and the remainder.  Taking fewer hex digits can never
help, because the following character would then be a hex digit, not a
colon. -/
def hexColonInst (l : List Char) : Option (List Char × List Char) :=
  let ds := (l.takeWhile isHexChar).take 4
  match l.drop ds.length with
  | ':' :: r => some (ds ++ [':'], r)
  | _ => none

/-- Greedily match up to `fuel` repetitions of `[0-9a-fA-F]{0,4}:`,
returning the repetition count, the consumed characters and the rest. -/
def hexColonRun : ℕ → List Char → ℕ × List Char × List Char
  | 0, l => (0, [], l)
  | fuel + 1, l =>
    match hexColonInst l with
    | some (seg, rest) =>
      let r := hexColonRun fuel rest
      (r.1 + 1, seg ++ r.2.1, r.2.2)
    | none => (0, [], l)

/-- The IPv6 branch `(?:[0-9a-fA-F]{0,4}:){2,7}[0-9a-fA-F]{0,4}` of the IP
regex, anchored at the start of `l`; returns the matched text.  The trailing
`[0-9a-fA-F]{0,4}` always succeeds, so the greedy repetition count is
final. -/
def matchIpv6At (l : List Char) : Option (List Char) :=
  let r := hexColonRun 7 l
  if 2 ≤ r.1 then some (r.2.1 ++ (r.2.2.takeWhile isHexChar).take 4) else none

/-- One octet `\d{1,3}` followed by a literal dot, anchored at the start of
`l`.  As with the hex groups, shortening the greedy digit run cannot
produce the required dot. -/
def octetDot (l : List Char) : Option (List Char × List Char) :=
  let ds := (l.takeWhile Char.isDigit).take 3
  if ds.isEmpty then none
  else
    match l.drop ds.length with
    | '.' :: r => some (ds ++ ['.'], r)
    | _ => none

/-- The IPv4 branch `\d{1,3}\.\d{1,3}\.\d{1,3}\.\d{1,3}` of the IP regex,
anchored at the start of `l`; returns the matched text. -/
def matchIpv4At (l : List Char) : Option (List Char) :=
  match octetDot l with
  | none => none
  | some (s1, r1) =>
    match octetDot r1 with
    | none => none
    | some (s2, r2) =>
      match octetDot r2 with
      | none => none
      | some (s3, r3) =>
        let ds := (r3.takeWhile Char.isDigit).take 3
        if ds.isEmpty then none else some (s1 ++ s2 ++ s3 ++ ds)

/-- The alternation of the IP regex at one start position: the IPv6 branch is
listed first in the source pattern, so it is tried first. -/
def matchIpAt (l : List Char) : Option (List Char) :=
  match matchIpv6At l with
  | some m => some m
  | none => matchIpv4At l

/-- `line.match(ipRegex)`: the leftmost position at which either branch
matches, returning the matched text (capture group 1 equals the whole
match). -/
def extractIp : List Char → Option (List Char)
  | [] => none
  | c :: rest =>
    match matchIpAt (c :: rest) with
    | some m => some m
    | none => extractIp rest

/-- `foundIp.replace(/:$/, '')`: drop a single trailing colon if present. -/
def stripTrailingColon (l : List Char) : List Char :=
  match l.getLast? with
  | some ':' => l.dropLast
  | _ => l

/-- The address a line contributes in the classifier loop of `runTraceroute`:
the extracted IP token after the minimal length check (`foundIp.length < 2`
skips the line) and the trailing-colon cleanup. -/
def lineAddr (l : List Char) : Option String :=
  match extractIp l with
  | none => none
  | some f => if f.length < 2 then none else some (String.mk (stripTrailingColon f))

/-- Strip a literal token (already lowercase) case-insensitively from the
start of `l` (the `i` flag lowers only ASCII letters here). -/
def stripTokenCI : List Char → List Char → Option (List Char)
  | [], l => some l
  | _ :: _, [] => none
  | t :: ts, c :: cs => if c.toLower == t then stripTokenCI ts cs else none

/-- Continuation `[=<]?\s*\d+` of the time-evidence regex after one of its
alternatives.  If the next character is `=` or `<` it is consumed (declining
it cannot help, since `=`/`<` is neither whitespace nor a digit); then
whitespace is skipped and a digit must follow. -/
def evTimeCont (l : List Char) : Bool :=
  let body := fun (l' : List Char) =>
    match l'.dropWhile isWsChar with
    | c :: _ => c.isDigit
    | [] => false
  match l with
  | c :: rest => if c == '=' || c == '<' then body rest else body l
  | [] => false

/-- The alternatives of `hasTime`: `(?:time|ms|时间|時間|zeit)`. -/
def timeTokens : List (List Char) :=
  [['t', 'i', 'm', 'e'], ['m', 's'], ['时', '间'], ['時', '間'], ['z', 'e', 'i', 't']]

/-- The time-evidence regex `(?:time|ms|时间|時間|zeit)[=<]?\s*\d+` (flag `i`)
matches somewhere in the line. -/
def hasTimeEvidence : List Char → Bool
  | [] => false
  | c :: rest =>
    timeTokens.any (fun tok =>
      match stripTokenCI tok (c :: rest) with
      | some r => evTimeCont r
      | none => false)
    || hasTimeEvidence rest

/-- The byte/sequence-evidence regex `(?:bytes|seq|icmp_seq)[=<]\d+` (flag
`i`) matches somewhere in the line; here the `=`/`<` is mandatory. -/
def hasBytesEvidence : List Char → Bool
  | [] => false
  | c :: rest =>
    [['b', 'y', 't', 'e', 's'], ['s', 'e', 'q'],
      ['i', 'c', 'm', 'p', '_', 's', 'e', 'q']].any (fun tok =>
      match stripTokenCI tok (c :: rest) with
      | some (d :: r) => (d == '=' || d == '<') && (match r with
        | e :: _ => e.isDigit
        | [] => false)
      | _ => false)
    || hasBytesEvidence rest

/-- A line carries corroborating evidence for a destination reply
(`hasTime || hasBytes` in the source). -/
def lineEvidence (l : List Char) : Bool := hasTimeEvidence l || hasBytesEvidence l

/-- `output.split(/\r?\n/)`: split on `\n`, also consuming a directly
preceding `\r`; a lone `\r` does not split. -/
def splitLines : List Char → List (List Char)
  | [] => [[]]
  | '\r' :: '\n' :: rest => [] :: splitLines rest
  | '\n' :: rest => [] :: splitLines rest
  | c :: rest =>
    match splitLines rest with
    | [] => [[c]]
    | line :: more => (c :: line) :: more

/-- The per-line decision loop of the `close` handler in `probeHop`:
scan lines in order; the first line with a usable address decides.  A
non-target address is a hop reply; the target address is accepted only with
corroborating evidence on the same line, otherwise scanning continues.
Returns `(discoveredIp, reachedDest)`, with `"*"` for no qualifying line. -/
def classifyScan (targetIP : String) : List (List Char) → String × Bool
  | [] => ("*", false)
  | l :: rest =>
    match lineAddr l with
    | none => classifyScan targetIP rest
    | some ip =>
      if ip ≠ targetIP then (ip, false)
      else if lineEvidence l then (targetIP, true)
      else classifyScan targetIP rest

/-- One TTL probe result of `runTraceroute`: `{hop, ip, reached}`. -/
structure TraceRes where
  hop : ℕ
  ip : String
  reached : Bool
deriving DecidableEq

/-- `probeHop` of `lib/traceroute.js`: spawn failure resolves
`{hop: ttl, ip: '*', reached: false}`; otherwise the stdout text is split
into lines and classified (the exit code is unused). -/
def probeHop (o : RawOutcome) (ttl : ℕ) (targetIP : String) : TraceRes :=
  match o with
  | .startFailure => ⟨ttl, "*", false⟩
  | .output raw _ =>
    let r := classifyScan targetIP (splitLines raw.toList)
    ⟨ttl, r.1, r.2⟩

/-- The batched execution loop of `runTraceroute`: starting TTL `i`, batches
of `BATCH_SIZE = 10` up to `MAX_HOPS = 30`; the target-reached flag is only
consulted between batches.  Returns all probe results in TTL order (the
source pushes them in result order of `Promise.all`, which preserves the
TTL order of the batch).  `fuel` bounds the recursion; the `i ≤ 30` guard is
what actually stops the sweep. -/
def sweepFrom (probe : ℕ → TraceRes) (targetIP : String) :
    ℕ → ℕ → Bool → List TraceRes
  | 0, _, _ => []
  | fuel + 1, i, reached =>
    if i ≤ 30 then
      if reached then []
      else
        let endTtl := min (i + 9) 30
        let results := (List.range' i (endTtl + 1 - i)).map probe
        results ++
          sweepFrom probe targetIP fuel (i + 10)
            (results.any fun r => r.reached || r.ip == targetIP)
    else []

/-- The truncation loop of `runTraceroute`: keep hops in order, stopping
right after the first hop whose address equals the target. -/
def truncAtTarget (targetIP : String) : List TraceRes → List TraceRes
  | [] => []
  | h :: t => if h.ip = targetIP then [h] else h :: truncAtTarget targetIP t

/-- `runTraceroute` of `lib/traceroute.js` over a family of raw process
outcomes (one per TTL): batched sweep, drop `'*'` non-entries, sort by hop
number, truncate at the first occurrence of the target address. -/
def runTraceroute (outcomes : ℕ → RawOutcome) (targetIP : String) : List TraceRes :=
  let all := sweepFrom (fun ttl => probeHop (outcomes ttl) ttl targetIP) targetIP 30 1 false
  let hops := all.filter fun r => r.ip ≠ "*"
  truncAtTarget targetIP (hops.mergeSort fun a b => a.hop ≤ b.hop)

/-! ## Cycle statistics aggregation (`lib/mtr.js`) -/

/-- A hop as consumed by `runMtrCycles`: hop number and address.  The source
objects may carry extra fields (`reached`, `rtt1`) that the aggregator never
reads; they carry no `host` field, so `stat.host || stat.ip` always yields
the address.  A JavaScript-falsy address (missing or empty) is modelled by
the empty string. -/
structure MtrHop where
  hop : ℕ
  ip : String
deriving DecidableEq

/-- The running per-hop statistics record of `runMtrCycles`.  `best` is
`none` while the source field still holds its `Infinity` sentinel.  The
source's running `stat.stdev` equals `Real.sqrt stdevSq`; the square is
stored to keep the state decidable. -/
@[ext]
structure HopStat where
  hop : ℕ
  ip : String
  sent : ℕ
  received : ℕ
  rtts : List ℚ
  best : Option ℚ
  worst : ℚ
  sum : ℚ
  avg : ℚ
  loss : ℚ
  stdevSq : ℚ
  isDead : Bool
deriving DecidableEq

/-- Initialization of one statistics record
(`hops.map(hop => ({...hop, sent: 0, ...}))`). -/
def initStat (h : MtrHop) : HopStat :=
  { hop := h.hop, ip := h.ip, sent := 0, received := 0, rtts := [], best := none,
    worst := 0, sum := 0, avg := 0, loss := 0, stdevSq := 0,
    isDead := h.ip == "" || h.ip == "*" }

/-- `calculateStDev` of `lib/mtr.js` before the final `Math.sqrt`: `0` for
fewer than two samples, otherwise the mean squared deviation from `avg`. -/
def calculateStDevSq (rtts : List ℚ) (avg : ℚ) : ℚ :=
  if rtts.length < 2 then 0
  else ((rtts.map fun rtt => (rtt - avg) ^ 2).sum) / (rtts.length : ℚ)

/-- `calculateStDev` of `lib/mtr.js` (`Math.sqrt` of the mean squared
deviation). -/
noncomputable def calculateStDev (rtts : List ℚ) (avg : ℚ) : ℝ :=
  Real.sqrt (calculateStDevSq rtts avg)

/-- The body of the per-hop task of one cycle in `runMtrCycles`: a dead slot
only increments `sent` and pins `loss` at 100; a live slot issues one probe,
counts it, records a returned RTT, and recomputes the derived statistics. -/
def stepStat (res : PingRes) (s : HopStat) : HopStat :=
  if s.isDead then
    { s with sent := s.sent + 1, loss := 100 }
  else
    let s1 := { s with sent := s.sent + 1 }
    let s2 : HopStat :=
      if res.alive then
        let sr := { s1 with received := s1.received + 1 }
        match res.time with
        | some t =>
          { sr with
            rtts := sr.rtts ++ [t],
            sum := sr.sum + t,
            best := some (match sr.best with
              | none => t
              | some b => if t < b then t else b),
            worst := if sr.worst < t then t else sr.worst }
        | none => sr
      else s1
    if 0 < s2.received then
      let avg := s2.sum / (s2.received : ℚ)
      { s2 with
          avg := avg, stdevSq := calculateStDevSq s2.rtts avg,
          loss := ((s2.sent : ℚ) - (s2.received : ℚ)) / (s2.sent : ℚ) * 100 }
    else
      { s2 with loss := 100 }

/-- One cycle: every hop is probed by its own task (`hopStats.map(async ...)`
joined by `Promise.all`); the raw process outcome of the probe for the hop at
position `j` in cycle `c` is `env c j`. -/
def runCycleFrom (env : ℤ → ℕ → RawOutcome) (c : ℤ) : ℕ → List HopStat → List HopStat
  | _, [] => []
  | j, s :: rest => stepStat (executePing (env c j)) s :: runCycleFrom env c (j + 1) rest

/-- `x.toFixed(1)` + `parseFloat` on a nonnegative rational. -/
def round1 (q : ℚ) : ℚ := (round (10 * q) : ℤ) / 10

/-- `x.toFixed(1)` + `parseFloat` on a nonnegative real (standard
deviations). -/
noncomputable def round1r (x : ℝ) : ℝ := ((round (10 * x) : ℤ) : ℝ) / 10

/-- One row of a progress snapshot (and, with `host`, of the final result):
`loss/avg/best/worst` are rounded to one decimal, the unset `best` sentinel
is reported as `0`.  The reported standard deviation is determined by
`stdevSq` (the stored square); the number the source actually writes into
the row is exposed as `SnapRow.stdev`. -/
@[ext]
structure SnapRow where
  hop : ℕ
  ip : String
  loss : ℚ
  avg : ℚ
  best : ℚ
  worst : ℚ
  stdevSq : ℚ
  sent : ℕ
deriving DecidableEq

/-- The `stdev` number the source writes into a snapshot row:
`parseFloat(Math.sqrt(variance).toFixed(1))`. -/
noncomputable def SnapRow.stdev (r : SnapRow) : ℝ :=
  round1r (Real.sqrt (r.stdevSq : ℝ))

/-- Materialize one snapshot row from a statistics record. -/
def snapRow (s : HopStat) : SnapRow :=
  { hop := s.hop, ip := s.ip, loss := round1 s.loss, avg := round1 s.avg,
    best := (match s.best with | none => 0 | some b => round1 b),
    worst := round1 s.worst, stdevSq := s.stdevSq, sent := s.sent }

/-- The `cycle_update` object handed to the progress callback. -/
structure Snapshot where
  cycle : ℤ
  totalCycles : ℤ
  hops : List SnapRow
deriving DecidableEq

/-- One row of the final result of `runMtrCycles`; as in `SnapRow`, the
reported standard deviation is exposed as `FinalStat.stdev`. -/
@[ext]
structure FinalStat where
  host : String
  ip : String
  loss : ℚ
  avg : ℚ
  best : ℚ
  worst : ℚ
  stdevSq : ℚ
deriving DecidableEq

/-- The `stdev` number the source writes into a final row. -/
noncomputable def FinalStat.stdev (f : FinalStat) : ℝ :=
  round1r (Real.sqrt (f.stdevSq : ℝ))

/-- Final formatting (`hopStats.map` at the end of `runMtrCycles`); the hop
records carry no `host` field, so `stat.host || stat.ip` is the address. -/
def finalOfStat (s : HopStat) : FinalStat :=
  { host := s.ip, ip := s.ip, loss := round1 s.loss, avg := round1 s.avg,
    best := (match s.best with | none => 0 | some b => round1 b),
    worst := round1 s.worst, stdevSq := s.stdevSq }

/-- The cycle loop `for (cycle = 1; cycle <= cycles; cycle++)`: `n` is the
number of remaining iterations, `c` the current cycle index.  Returns the
final statistics records and the snapshots handed to the progress callback,
in emission order. -/
def runCyclesAux (env : ℤ → ℕ → RawOutcome) (total : ℤ) :
    ℕ → ℤ → List HopStat → List HopStat × List Snapshot
  | 0, _, stats => (stats, [])
  | n + 1, c, stats =>
    let stats' := runCycleFrom env c 0 stats
    let r := runCyclesAux env total n (c + 1) stats'
    (r.1, ⟨c, total, stats'.map snapRow⟩ :: r.2)

/-- `runMtrCycles` of `lib/mtr.js` (with a progress callback supplied): the
loop runs `max 0 cycles` times with cycle indices `1, 2, ...`; the
inter-cycle delay is unobservable in the model. -/
def runMtrCycles (hops : List MtrHop) (cycles : ℤ)
    (env : ℤ → ℕ → RawOutcome) : List FinalStat × List Snapshot :=
  let r := runCyclesAux env cycles cycles.toNat 1 (hops.map initStat)
  (r.1.map finalOfStat, r.2)

/-- The raw statistics records at the moment `runMtrCycles` returns. -/
def mtrRawStats (hops : List MtrHop) (cycles : ℤ) (env : ℤ → ℕ → RawOutcome) :
    List HopStat :=
  (runCyclesAux env cycles cycles.toNat 1 (hops.map initStat)).1

/-- The final formatted rows returned by `runMtrCycles`. -/
def mtrFinal (hops : List MtrHop) (cycles : ℤ)
    (env : ℤ → ℕ → RawOutcome) : List FinalStat :=
  (runMtrCycles hops cycles env).1

/-- The snapshots handed to the progress callback by `runMtrCycles`. -/
def mtrSnaps (hops : List MtrHop) (cycles : ℤ)
    (env : ℤ → ℕ → RawOutcome) : List Snapshot :=
  (runMtrCycles hops cycles env).2

/-! ## Engine façade (`index.js`) -/

/-- The destination-repair step of `NetworkDiagnosisTool.run`: if the
discovered list is empty or does not end in the target, append a synthetic
final hop `{hop: lastIndex + 1 (or 1), ip: target}`. -/
def forceTargetAppend (hops : List MtrHop) (targetIP : String) : List MtrHop :=
  match hops.getLast? with
  | none => hops ++ [⟨0 + 1, targetIP⟩]
  | some last => if last.ip ≠ targetIP then hops ++ [⟨last.hop + 1, targetIP⟩] else hops

/-- The hop list handed to `runMtrCycles` by the façade: discovery followed by
destination repair (the aggregator reads only the `hop` and `ip` fields of
the discovered objects). -/
def diagnoseHops (outcomes : ℕ → RawOutcome) (targetIP : String) : List MtrHop :=
  forceTargetAppend ((runTraceroute outcomes targetIP).map fun r => ⟨r.hop, r.ip⟩) targetIP

/-! ## Aggregator analysis: per-hop unfolding of the cycle loop -/

/-- The statistics record of the hop at position `i` after `k` completed
cycles (cycle indices `1..k`). -/
def statAfter (env : ℤ → ℕ → RawOutcome) (i : ℕ) (h : MtrHop) : ℕ → HopStat
  | 0 => initStat h
  | k + 1 => stepStat (executePing (env ((k : ℤ) + 1) i)) (statAfter env i h k)

/-- The whole statistics list after `k` further cycles starting at cycle
index `c`. -/
def iterCycles (env : ℤ → ℕ → RawOutcome) (c : ℤ) (stats : List HopStat) :
    ℕ → List HopStat
  | 0 => stats
  | k + 1 => runCycleFrom env (c + (k : ℤ)) 0 (iterCycles env c stats k)

/-- Data invariant tying the running fields of a statistics record to the
collected sample list; established at initialization and preserved by every
cycle step. -/
def InvCore (s : HopStat) : Prop :=
  s.received ≤ s.sent ∧
  s.sum = s.rtts.sum ∧
  s.received = s.rtts.length ∧
  (1 ≤ s.received →
    s.avg = s.sum / (s.received : ℚ) ∧ s.stdevSq = calculateStDevSq s.rtts s.avg) ∧
  (s.received = 0 →
    s.rtts = [] ∧ s.sum = 0 ∧ s.avg = 0 ∧ s.stdevSq = 0 ∧ s.best = none ∧ s.worst = 0) ∧
  (1 ≤ s.sent → s.loss = ((s.sent : ℚ) - (s.received : ℚ)) / (s.sent : ℚ) * 100) ∧
  (s.sent = 0 → s.loss = 0) ∧
  (s.isDead = true → s.received = 0)

/-- The population mean of a sample list. -/
def listMean (l : List ℚ) : ℚ := l.sum / (l.length : ℚ)

/-- The population variance (dividing by `N`, not `N - 1`) of a sample
list. -/
def popVariance (l : List ℚ) : ℚ :=
  ((l.map fun r => (r - listMean l) ^ 2).sum) / (l.length : ℚ)

/-! ## Concrete instances used to exercise the embedding -/

/-- A successful ping stdout fragment carrying the given RTT text. -/
def mkPingOut (v : String) : RawOutcome := .output ("time=" ++ v ++ "ms") 0

/-- The two-hop list of the documented scenario. -/
def hopsScn : List MtrHop := [⟨1, "10.0.0.1"⟩, ⟨2, "8.8.8.8"⟩]

/-- Probe outcomes of the documented scenario: samples `[10, 12]` for hop 1
and `[10, 14]` for hop 2 over two cycles. -/
def envScn : ℤ → ℕ → RawOutcome := fun c i =>
  if c = 1 then mkPingOut "10" else if i = 0 then mkPingOut "12" else mkPingOut "14"

/-- An environment in which every probe process fails to start. -/
def envFail : ℤ → ℕ → RawOutcome := fun _ _ => .startFailure

/-- TTL-probe outcomes for a three-hop discovery exercise: hop 1 answers with
a TTL-exceeded line, hop 2 is the destination, everything else times out. -/
def envTrace : ℕ → RawOutcome := fun ttl =>
  if ttl = 1 then .output "From 10.0.0.1 icmp_seq=1 Time to live exceeded" 1
  else if ttl = 2 then .output "64 bytes from 9.9.9.9: icmp_seq=1 ttl=55 time=23 ms" 0
  else .output "" 1

/-- TTL-probe outcomes where the probe at TTL 1 fails to start and the
destination answers at TTL 2. -/
def envTraceFail : ℕ → RawOutcome := fun ttl =>
  if ttl = 1 then .startFailure
  else if ttl = 2 then .output "64 bytes from 9.9.9.9: icmp_seq=1 ttl=55 time=23 ms" 0
  else .output "" 1

/-! ## Basic lemmas about the cycle step -/

theorem executePing_wf (o : RawOutcome) :
    ((executePing o).alive = true → (executePing o).time.isSome) ∧
    ((executePing o).alive = false → (executePing o).time = none) := by
  cases o with
  | startFailure => simp [executePing]
  | output raw code =>
    simp only [executePing]
    cases findMs raw.toList <;> simp

theorem stepStat_sent (res : PingRes) (s : HopStat) :
    (stepStat res s).sent = s.sent + 1 := by
  by_cases hd : s.isDead = true <;> cases ha : res.alive <;> cases ht : res.time <;>
    simp [stepStat, hd, ha, ht] <;> split <;> simp

theorem stepStat_fixed (res : PingRes) (s : HopStat) :
    (stepStat res s).hop = s.hop ∧ (stepStat res s).ip = s.ip ∧
    (stepStat res s).isDead = s.isDead := by
  by_cases hd : s.isDead = true <;> cases ha : res.alive <;> cases ht : res.time <;>
    simp [stepStat, hd, ha, ht] <;> split <;> simp

theorem stepStat_dead (res : PingRes) (s : HopStat) (hd : s.isDead = true) :
    stepStat res s = { s with sent := s.sent + 1, loss := 100 } := by
  simp [stepStat, hd]

theorem invCore_init (h : MtrHop) : InvCore (initStat h) := by
  simp [InvCore, initStat]

theorem stepStat_alive (t : ℚ) (s : HopStat) (hd : s.isDead = false) :
    stepStat ⟨true, some t⟩ s =
      { s with
          sent := s.sent + 1, received := s.received + 1,
          rtts := s.rtts ++ [t], sum := s.sum + t,
          best := some (match s.best with
            | none => t
            | some b => if t < b then t else b),
          worst := if s.worst < t then t else s.worst,
          avg := (s.sum + t) / ((s.received + 1 : ℕ) : ℚ),
          stdevSq := calculateStDevSq (s.rtts ++ [t])
            ((s.sum + t) / ((s.received + 1 : ℕ) : ℚ)),
          loss := (((s.sent + 1 : ℕ) : ℚ) - ((s.received + 1 : ℕ) : ℚ)) /
            ((s.sent + 1 : ℕ) : ℚ) * 100 } := by
  simp [stepStat, hd]

theorem loss_formula_all_lost (sent : ℕ) (h : 1 ≤ sent) :
    ((sent : ℚ) - ((0 : ℕ) : ℚ)) / (sent : ℚ) * 100 = 100 := by
  have hs : (sent : ℚ) ≠ 0 := by positivity
  field_simp

theorem stepStat_invCore {res : PingRes} (hres : res.alive = true → res.time.isSome)
    {s : HopStat} (h : InvCore s) : InvCore (stepStat res s) := by
  obtain ⟨h1, h2, h3, h4, h5, h6, h7, h8⟩ := h
  by_cases hd : s.isDead = true
  · rw [stepStat_dead res s hd]
    have hr0 := h8 hd
    unfold InvCore
    refine ⟨?_, ?_, ?_, ?_, ?_, ?_, ?_, ?_⟩ <;> dsimp only
    · omega
    · exact h2
    · exact h3
    · intro hx
      rw [hr0] at hx
      exact absurd hx (by omega)
    · exact h5
    · intro _
      rw [hr0]
      exact (loss_formula_all_lost (s.sent + 1) (by omega)).symm
    · intro hx
      exact absurd hx (by omega)
    · intro _
      exact hr0
  · have hd' : s.isDead = false := by simpa using hd
    cases ha : res.alive
    · by_cases hrc : 0 < s.received
      · have hgoal : stepStat res s =
            { s with
                sent := s.sent + 1,
                avg := s.sum / ((s.received : ℕ) : ℚ),
                stdevSq := calculateStDevSq s.rtts (s.sum / ((s.received : ℕ) : ℚ)),
                loss := (((s.sent + 1 : ℕ) : ℚ) - ((s.received : ℕ) : ℚ)) /
                  ((s.sent + 1 : ℕ) : ℚ) * 100 } := by
          simp [stepStat, hd', ha, hrc]
        rw [hgoal]
        unfold InvCore
        refine ⟨?_, ?_, ?_, ?_, ?_, ?_, ?_, ?_⟩ <;> dsimp only
        · omega
        · exact h2
        · exact h3
        · intro _
          exact ⟨rfl, rfl⟩
        · intro hx
          exact absurd hx (by omega)
        · intro _
          rfl
        · intro hx
          exact absurd hx (by omega)
        · rw [hd']
          intro hx
          exact absurd hx (by simp)
      · have hr0 : s.received = 0 := by omega
        have hgoal : stepStat res s = { s with sent := s.sent + 1, loss := 100 } := by
          simp [stepStat, hd', ha, hr0]
        rw [hgoal]
        unfold InvCore
        refine ⟨?_, ?_, ?_, ?_, ?_, ?_, ?_, ?_⟩ <;> dsimp only
        · omega
        · exact h2
        · exact h3
        · intro hx
          rw [hr0] at hx
          exact absurd hx (by omega)
        · exact h5
        · intro _
          rw [hr0]
          exact (loss_formula_all_lost (s.sent + 1) (by omega)).symm
        · intro hx
          exact absurd hx (by omega)
        · intro _
          exact hr0
    · obtain ⟨t, ht⟩ : ∃ t, res.time = some t := by
        rcases hq : res.time with - | q
        · rw [hq] at hres
          simp [ha] at hres
        · exact ⟨q, rfl⟩
      have hgoal : stepStat res s =
          { s with
              sent := s.sent + 1, received := s.received + 1,
              rtts := s.rtts ++ [t], sum := s.sum + t,
              best := some (match s.best with
                | none => t
                | some b => if t < b then t else b),
              worst := if s.worst < t then t else s.worst,
              avg := (s.sum + t) / ((s.received + 1 : ℕ) : ℚ),
              stdevSq := calculateStDevSq (s.rtts ++ [t])
                ((s.sum + t) / ((s.received + 1 : ℕ) : ℚ)),
              loss := (((s.sent + 1 : ℕ) : ℚ) - ((s.received + 1 : ℕ) : ℚ)) /
                ((s.sent + 1 : ℕ) : ℚ) * 100 } := by
        simp [stepStat, hd', ha, ht]
      rw [hgoal]
      unfold InvCore
      refine ⟨?_, ?_, ?_, ?_, ?_, ?_, ?_, ?_⟩ <;> dsimp only
      · omega
      · rw [h2]
        simp
      · rw [h3]
        simp
      · intro _
        exact ⟨rfl, rfl⟩
      · intro hx
        exact absurd hx (by omega)
      · intro _
        rfl
      · intro hx
        exact absurd hx (by omega)
      · rw [hd']
        intro hx
        exact absurd hx (by simp)

/-! ## Unfolding the cycle loop -/

theorem runCycleFrom_getElem (env : ℤ → ℕ → RawOutcome) (c : ℤ) :
    ∀ (stats : List HopStat) (j i : ℕ),
      (runCycleFrom env c j stats)[i]? =
        (stats[i]?).map fun s => stepStat (executePing (env c (j + i))) s := by
  intro stats
  induction stats with
  | nil => intro j i; simp [runCycleFrom]
  | cons s rest ih =>
    intro j i
    cases i with
    | zero => simp [runCycleFrom]
    | succ i' =>
      simp only [runCycleFrom, List.getElem?_cons_succ]
      rw [ih (j + 1) i']
      have hj : j + 1 + i' = j + (i' + 1) := by omega
      rw [hj]

theorem iterCycles_getElem (env : ℤ → ℕ → RawOutcome) (hops : List MtrHop) :
    ∀ (k i : ℕ),
      (iterCycles env 1 (hops.map initStat) k)[i]? =
        (hops[i]?).map fun h => statAfter env i h k := by
  intro k
  induction k with
  | zero =>
    intro i
    simp [iterCycles, statAfter]
  | succ k' ih =>
    intro i
    simp only [iterCycles, statAfter]
    rw [runCycleFrom_getElem, ih i]
    have hc : (1 : ℤ) + (k' : ℤ) = (k' : ℤ) + 1 := by ring
    cases hv : hops[i]?
    · rfl
    · simp only [Option.map_some', Option.map_map, Function.comp]
      rw [Nat.zero_add, hc]

theorem iterCycles_shift (env : ℤ → ℕ → RawOutcome) (c : ℤ) (stats : List HopStat) :
    ∀ k, iterCycles env (c + 1) (runCycleFrom env c 0 stats) k =
      iterCycles env c stats (k + 1) := by
  intro k
  induction k with
  | zero =>
    show runCycleFrom env c 0 stats = runCycleFrom env (c + (0 : ℕ)) 0 stats
    norm_num
  | succ k' ih =>
    show runCycleFrom env (c + 1 + (k' : ℤ)) 0 _ = runCycleFrom env (c + ((k' + 1 : ℕ) : ℤ)) 0 _
    rw [ih]
    congr 1
    push_cast
    ring

theorem runCyclesAux_spec (env : ℤ → ℕ → RawOutcome) (total : ℤ) :
    ∀ (n : ℕ) (c : ℤ) (stats : List HopStat),
      runCyclesAux env total n c stats =
        (iterCycles env c stats n,
         (List.range n).map fun j =>
           ⟨c + (j : ℤ), total, (iterCycles env c stats (j + 1)).map snapRow⟩) := by
  intro n
  induction n with
  | zero =>
    intro c stats
    simp [runCyclesAux, iterCycles]
  | succ n' ih =>
    intro c stats
    simp only [runCyclesAux]
    rw [ih (c + 1) (runCycleFrom env c 0 stats)]
    refine Prod.ext ?_ ?_
    · show iterCycles env (c + 1) (runCycleFrom env c 0 stats) n' = _
      rw [iterCycles_shift]
    · show (⟨c, total, (runCycleFrom env c 0 stats).map snapRow⟩ : Snapshot) :: _ = _
      rw [List.range_succ_eq_map]
      simp only [List.map_cons, List.map_map]
      congr 1
      · show (⟨c, total, (runCycleFrom env c 0 stats).map snapRow⟩ : Snapshot) =
          ⟨c + ((0 : ℕ) : ℤ), total, (iterCycles env c stats (0 + 1)).map snapRow⟩
        have h1 : iterCycles env c stats (0 + 1) = runCycleFrom env c 0 stats := by
          show runCycleFrom env (c + ((0 : ℕ) : ℤ)) 0 (iterCycles env c stats 0) = _
          norm_num
          rfl
        rw [h1]
        norm_num
      · refine List.map_congr_left fun j _ => ?_
        show (⟨c + 1 + (j : ℤ), total,
            (iterCycles env (c + 1) (runCycleFrom env c 0 stats) (j + 1)).map snapRow⟩ : Snapshot) =
          ⟨c + ((j + 1 : ℕ) : ℤ), total, (iterCycles env c stats (j + 1 + 1)).map snapRow⟩
        rw [iterCycles_shift]
        have : c + 1 + (j : ℤ) = c + ((j + 1 : ℕ) : ℤ) := by push_cast; ring
        rw [this]

theorem statAfter_sent (env : ℤ → ℕ → RawOutcome) (i : ℕ) (h : MtrHop) :
    ∀ k, (statAfter env i h k).sent = k := by
  intro k
  induction k with
  | zero => simp [statAfter, initStat]
  | succ k' ih =>
    show (stepStat _ _).sent = k' + 1
    rw [stepStat_sent, ih]

theorem statAfter_fixed (env : ℤ → ℕ → RawOutcome) (i : ℕ) (h : MtrHop) :
    ∀ k, (statAfter env i h k).hop = h.hop ∧ (statAfter env i h k).ip = h.ip ∧
      (statAfter env i h k).isDead = (h.ip == "" || h.ip == "*") := by
  intro k
  induction k with
  | zero => simp [statAfter, initStat]
  | succ k' ih =>
    obtain ⟨i1, i2, i3⟩ := ih
    obtain ⟨f1, f2, f3⟩ := stepStat_fixed (executePing (env ((k' : ℤ) + 1) i)) (statAfter env i h k')
    exact ⟨f1.trans i1, f2.trans i2, f3.trans i3⟩

theorem statAfter_invCore (env : ℤ → ℕ → RawOutcome) (i : ℕ) (h : MtrHop) :
    ∀ k, InvCore (statAfter env i h k) := by
  intro k
  induction k with
  | zero => exact invCore_init h
  | succ k' ih =>
    exact stepStat_invCore (executePing_wf (env ((k' : ℤ) + 1) i)).1 ih

theorem statAfter_deadShape (env : ℤ → ℕ → RawOutcome) (i : ℕ) (h : MtrHop)
    (hd : h.ip = "" ∨ h.ip = "*") :
    ∀ k, 1 ≤ k → statAfter env i h k = { initStat h with sent := k, loss := 100 } := by
  have hdead : (initStat h).isDead = true := by
    rcases hd with h1 | h1 <;> simp [initStat, h1]
  intro k
  induction k with
  | zero => omega
  | succ k' ih =>
    intro _
    show stepStat _ (statAfter env i h k') = _
    cases Nat.eq_zero_or_pos k' with
    | inl h0 =>
      subst h0
      show stepStat _ (initStat h) = _
      rw [stepStat_dead _ _ hdead]
      simp [initStat]
    | inr hpos =>
      rw [ih hpos, stepStat_dead _ _ (by simpa using hdead)]

theorem mtrRawStats_eq (hops : List MtrHop) (cycles : ℤ) (env : ℤ → ℕ → RawOutcome) :
    mtrRawStats hops cycles env = iterCycles env 1 (hops.map initStat) cycles.toNat := by
  rw [mtrRawStats, runCyclesAux_spec]

theorem mtrSnaps_eq (hops : List MtrHop) (cycles : ℤ) (env : ℤ → ℕ → RawOutcome) :
    mtrSnaps hops cycles env = (List.range cycles.toNat).map fun j =>
      ⟨1 + (j : ℤ), cycles, (iterCycles env 1 (hops.map initStat) (j + 1)).map snapRow⟩ := by
  rw [mtrSnaps, runMtrCycles, runCyclesAux_spec]

theorem mtrFinal_eq (hops : List MtrHop) (cycles : ℤ) (env : ℤ → ℕ → RawOutcome) :
    mtrFinal hops cycles env = (mtrRawStats hops cycles env).map finalOfStat := by
  rw [mtrFinal, runMtrCycles, mtrRawStats]

theorem mem_iterCycles {env : ℤ → ℕ → RawOutcome} {hops : List MtrHop} {k : ℕ}
    {s : HopStat} :
    s ∈ iterCycles env 1 (hops.map initStat) k ↔
      ∃ (i : ℕ) (h : MtrHop), hops[i]? = some h ∧ s = statAfter env i h k := by
  rw [List.mem_iff_getElem?]
  constructor
  · rintro ⟨i, hi⟩
    rw [iterCycles_getElem] at hi
    rcases Option.map_eq_some'.mp hi with ⟨h, hh, hs⟩
    exact ⟨i, h, hh, hs.symm⟩
  · rintro ⟨i, h, hh, hs⟩
    refine ⟨i, ?_⟩
    rw [iterCycles_getElem, hh, Option.map_some', hs]

theorem round1_cast (q : ℚ) : round1r ((q : ℚ) : ℝ) = ((round1 q : ℚ) : ℝ) := by
  rw [round1r, round1]
  rw [show (10 : ℝ) * (q : ℝ) = ((10 * q : ℚ) : ℝ) by push_cast; ring]
  rw [Rat.round_cast]
  push_cast
  ring

theorem round1r_zero : round1r 0 = 0 := by
  rw [round1r]
  norm_num

theorem round1r_one : round1r 1 = 1 := by
  rw [round1r]
  rw [show (10 : ℝ) * 1 = ((10 : ℤ) : ℝ) by norm_num]
  rw [round_intCast]
  norm_num

theorem round1r_two : round1r 2 = 2 := by
  rw [round1r]
  rw [show (10 : ℝ) * 2 = ((20 : ℤ) : ℝ) by norm_num]
  rw [round_intCast]
  norm_num

theorem stdev_of_sq_zero {q : ℚ} (h : q = 0) :
    round1r (Real.sqrt ((q : ℚ) : ℝ)) = 0 := by
  subst h
  rw [Rat.cast_zero, Real.sqrt_zero, round1r_zero]

theorem round1_natCast (n : ℕ) : round1 ((n : ℕ) : ℚ) = (n : ℚ) := by
  rw [round1, show (10 : ℚ) * ((n : ℕ) : ℚ) = ((10 * n : ℕ) : ℚ) by push_cast; ring,
    round_natCast]
  push_cast
  field_simp

theorem round1_zero : round1 0 = 0 := by
  simpa using round1_natCast 0

theorem round1_hundred : round1 100 = 100 := by
  simpa using round1_natCast 100

/-! ## Claim theorems -/

/-- C2: for every live hop (one with a usable address) after any completed
cycle, the loss percentage equals `100 * (sent - received) / sent` and lies
in `[0, 100]`; when `received = 0` it is `100`, and `sent` is the cycle
count, never `0`.  The second conjunct grounds the per-cycle state
`iterCycles` in the aggregator `runMtrCycles` itself. -/
theorem mtr_live_loss_formula (hops : List MtrHop) (env : ℤ → ℕ → RawOutcome) :
    (∀ k : ℕ, 1 ≤ k → ∀ s ∈ iterCycles env 1 (hops.map initStat) k,
      s.isDead = false →
        s.loss = 100 * ((s.sent : ℚ) - (s.received : ℚ)) / (s.sent : ℚ) ∧
        0 ≤ s.loss ∧ s.loss ≤ 100 ∧ 1 ≤ s.sent ∧
        (s.received = 0 → s.loss = 100)) ∧
    (∀ cycles : ℤ,
      mtrRawStats hops cycles env = iterCycles env 1 (hops.map initStat) cycles.toNat) := by
  constructor
  · intro k hk s hs _
    obtain ⟨i, h, hh, rfl⟩ := mem_iterCycles.mp hs
    obtain ⟨h1, _, _, _, _, h6, _, _⟩ := statAfter_invCore env i h k
    have hsent : (statAfter env i h k).sent = k := statAfter_sent env i h k
    have hks : 1 ≤ (statAfter env i h k).sent := by omega
    have hform := h6 hks
    set a := (statAfter env i h k).sent with ha
    set b := (statAfter env i h k).received with hb
    have hba : (b : ℚ) ≤ (a : ℚ) := by exact_mod_cast h1
    have hapos : 0 < (a : ℚ) := by
      have : 0 < a := by omega
      exact_mod_cast this
    refine ⟨by rw [hform]; ring, ?_, ?_, hks, ?_⟩
    · rw [hform]
      apply mul_nonneg
      · apply div_nonneg
        · linarith
        · linarith
      · norm_num
    · rw [hform]
      have hdiv : ((a : ℚ) - (b : ℚ)) / (a : ℚ) ≤ 1 := by
        rw [div_le_one hapos]
        have : (0 : ℚ) ≤ (b : ℚ) := by positivity
        linarith
      nlinarith
    · intro hr0
      rw [hform, hr0]
      push_cast
      field_simp
  · intro cycles
    exact mtrRawStats_eq hops cycles env

/-- Witness for C2 at the concrete scenario run: hop 0 after one cycle. -/
theorem mtr_live_loss_formula_witness :
    (1 ≤ 1 ∧
      statAfter envScn 0 ⟨1, "10.0.0.1"⟩ 1 ∈ iterCycles envScn 1 (hopsScn.map initStat) 1 ∧
      (statAfter envScn 0 ⟨1, "10.0.0.1"⟩ 1).isDead = false) ∧
    (statAfter envScn 0 ⟨1, "10.0.0.1"⟩ 1).loss =
      100 * (((statAfter envScn 0 ⟨1, "10.0.0.1"⟩ 1).sent : ℚ) -
        ((statAfter envScn 0 ⟨1, "10.0.0.1"⟩ 1).received : ℚ)) /
        ((statAfter envScn 0 ⟨1, "10.0.0.1"⟩ 1).sent : ℚ) := by
  have hmem : statAfter envScn 0 ⟨1, "10.0.0.1"⟩ 1 ∈
      iterCycles envScn 1 (hopsScn.map initStat) 1 :=
    mem_iterCycles.mpr ⟨0, ⟨1, "10.0.0.1"⟩, rfl, rfl⟩
  have hdead : (statAfter envScn 0 ⟨1, "10.0.0.1"⟩ 1).isDead = false := by decide
  exact ⟨⟨le_refl 1, hmem, hdead⟩,
    ((mtr_live_loss_formula hopsScn envScn).1 1 (le_refl 1) _ hmem hdead).1⟩

/-- C5: for a cycle count `C ≥ 1` the aggregator hands the progress callback
exactly `C` snapshots before resolving; the snapshot at position `i` carries
cycle index `i + 1` (so the indices strictly increase from 1 to `C`) and
total `C`, and each of its rows reports `sent = i + 1`. -/
theorem mtr_snapshot_protocol (hops : List MtrHop) (env : ℤ → ℕ → RawOutcome)
    (cycles : ℤ) (hc : 1 ≤ cycles) :
    ((mtrSnaps hops cycles env).length : ℤ) = cycles ∧
    (∀ i : ℕ, (i : ℤ) < cycles →
      ∃ sn, (mtrSnaps hops cycles env)[i]? = some sn ∧
        sn.cycle = (i : ℤ) + 1 ∧ sn.totalCycles = cycles ∧
        ∀ row ∈ sn.hops, row.sent = i + 1) := by
  rw [mtrSnaps_eq]
  constructor
  · simp
    omega
  · intro i hi
    have hi' : i < cycles.toNat := by omega
    refine ⟨⟨1 + (i : ℤ), cycles,
      (iterCycles env 1 (hops.map initStat) (i + 1)).map snapRow⟩, ?_, by ring, rfl, ?_⟩
    · rw [List.getElem?_map, List.getElem?_range hi']
      rfl
    · intro row hrow
      rcases List.mem_map.mp hrow with ⟨s, hsmem, rfl⟩
      rcases mem_iterCycles.mp hsmem with ⟨j, h, _, rfl⟩
      show (snapRow _).sent = i + 1
      rw [snapRow]
      exact statAfter_sent env j h (i + 1)

/-- Witness for C5: the two-hop scenario run with two cycles. -/
theorem mtr_snapshot_protocol_witness :
    (1 ≤ (2 : ℤ)) ∧ ((mtrSnaps hopsScn 2 envScn).length : ℤ) = 2 := by
  refine ⟨by norm_num, (mtr_snapshot_protocol hopsScn envScn 2 (by norm_num)).1⟩

/-- C10: for a cycle count `C ≤ 0` the aggregator consults no probe
(the result is independent of the environment), hands the callback no
snapshot, and still resolves with one record per input hop, in input order,
whose fields are all the initial zeros — in particular `loss = 0`, not 100,
even for a dead or unreachable hop. -/
theorem mtr_zero_cycles (hops : List MtrHop) (env : ℤ → ℕ → RawOutcome)
    (cycles : ℤ) (hc : cycles ≤ 0) :
    mtrSnaps hops cycles env = [] ∧
    (∀ env', runMtrCycles hops cycles env = runMtrCycles hops cycles env') ∧
    (mtrFinal hops cycles env).length = hops.length ∧
    (∀ (i : ℕ) (h : MtrHop), hops[i]? = some h →
      ∃ f, (mtrFinal hops cycles env)[i]? = some f ∧
        f = ⟨h.ip, h.ip, 0, 0, 0, 0, 0⟩ ∧ f.stdev = 0) := by
  have h0 : cycles.toNat = 0 := by omega
  have hrun : ∀ env' : ℤ → ℕ → RawOutcome,
      runMtrCycles hops cycles env' = ((hops.map initStat).map finalOfStat, []) := by
    intro env'
    rw [runMtrCycles, h0]
    rfl
  have hfin : mtrFinal hops cycles env = (hops.map initStat).map finalOfStat := by
    rw [mtrFinal, hrun env]
  refine ⟨?_, ?_, ?_, ?_⟩
  · rw [mtrSnaps, hrun env]
  · intro env'
    rw [hrun env, hrun env']
  · rw [hfin]
    simp
  · intro i h hh
    refine ⟨finalOfStat (initStat h), ?_, ?_, ?_⟩
    · rw [hfin, List.getElem?_map, List.getElem?_map, hh]
      rfl
    · show finalOfStat (initStat h) = ⟨h.ip, h.ip, 0, 0, 0, 0, 0⟩
      simp [finalOfStat, initStat, round1_zero]
    · show round1r (Real.sqrt _) = 0
      exact stdev_of_sq_zero rfl

/-- Witness for C10: a one-hop list with zero cycles. -/
theorem mtr_zero_cycles_witness :
    ((0 : ℤ) ≤ 0) ∧ mtrSnaps [⟨1, "8.8.8.8"⟩] 0 envFail = [] := by
  exact ⟨le_refl 0, (mtr_zero_cycles [⟨1, "8.8.8.8"⟩] envFail 0 (le_refl 0)).1⟩

/-- C3 as frozen is false on two counts, at concrete inputs: a dead (`'*'`)
slot's attempt counter `sent` is `1`, not `0`, after one cycle (the dead
branch of the cycle task still runs `stat.sent++`), and for cycle count 0
the final result reports `loss = 0` for the dead slot, not 100. -/
theorem mtr_dead_hop_counterexample :
    (mtrRawStats [⟨1, "*"⟩] 1 envFail).map HopStat.sent = [1] ∧
    (mtrFinal [⟨1, "*"⟩] 0 envFail).map FinalStat.loss = [0] := by
  constructor
  · decide
  · have h0 : ((0 : ℤ)).toNat = 0 := rfl
    rw [mtrFinal_eq, mtrRawStats, h0]
    show [finalOfStat (initStat ⟨1, "*"⟩)].map FinalStat.loss = [0]
    simp [finalOfStat, initStat, round1_zero]

/-- C3, amended: an address-less (dead) slot never has its probe issued (the
cycle step ignores the probe result), but its `sent` counter is incremented
every cycle; for any cycle count `C ≥ 1` it shows `loss = 100`,
`avg = best = worst = stdev = 0` and `sent = cycle index` in every snapshot,
and `loss = 100` with zero statistics in the final result. -/
theorem mtr_dead_hop_amended (hops : List MtrHop) (env : ℤ → ℕ → RawOutcome)
    (cycles : ℤ) (i : ℕ) (h : MtrHop) (hc : 1 ≤ cycles)
    (hh : hops[i]? = some h) (hd : h.ip = "" ∨ h.ip = "*") :
    (∀ sn ∈ mtrSnaps hops cycles env,
      ∃ row, sn.hops[i]? = some row ∧ row.loss = 100 ∧ row.avg = 0 ∧
        row.best = 0 ∧ row.worst = 0 ∧ row.stdevSq = 0 ∧ row.stdev = 0 ∧
        (row.sent : ℤ) = sn.cycle) ∧
    (∃ f, (mtrFinal hops cycles env)[i]? = some f ∧ f.loss = 100 ∧ f.avg = 0 ∧
      f.best = 0 ∧ f.worst = 0 ∧ f.stdevSq = 0 ∧ f.stdev = 0) ∧
    (∀ (res res' : PingRes) (s : HopStat), s.isDead = true →
      stepStat res s = stepStat res' s) := by
  have hrow : ∀ k : ℕ, 1 ≤ k →
      snapRow (statAfter env i h k) =
        ⟨h.hop, h.ip, 100, 0, 0, 0, 0, k⟩ := by
    intro k hk
    rw [statAfter_deadShape env i h hd k hk]
    simp [snapRow, initStat, round1_zero, round1_hundred]
  refine ⟨?_, ?_, ?_⟩
  · intro sn hsn
    rw [mtrSnaps_eq] at hsn
    rcases List.mem_map.mp hsn with ⟨j, hj, rfl⟩
    have hj' : j < cycles.toNat := List.mem_range.mp hj
    refine ⟨⟨h.hop, h.ip, 100, 0, 0, 0, 0, j + 1⟩, ?_, rfl, rfl, rfl, rfl, rfl, ?_, ?_⟩
    · show ((iterCycles env 1 (hops.map initStat) (j + 1)).map snapRow)[i]? = _
      rw [List.getElem?_map, iterCycles_getElem, hh]
      show some (snapRow (statAfter env i h (j + 1))) = _
      rw [hrow (j + 1) (by omega)]
    · show round1r (Real.sqrt _) = 0
      exact stdev_of_sq_zero rfl
    · show ((j + 1 : ℕ) : ℤ) = 1 + (j : ℤ)
      push_cast
      ring
  · have hk : 1 ≤ cycles.toNat := by omega
    refine ⟨⟨h.ip, h.ip, 100, 0, 0, 0, 0⟩, ?_, rfl, rfl, rfl, rfl, rfl, ?_⟩
    · rw [mtrFinal_eq, mtrRawStats_eq, List.getElem?_map, iterCycles_getElem, hh]
      show some (finalOfStat (statAfter env i h cycles.toNat)) = _
      rw [statAfter_deadShape env i h hd cycles.toNat hk]
      refine congrArg some ?_
      simp [finalOfStat, initStat, round1_zero, round1_hundred]
    · show round1r (Real.sqrt _) = 0
      exact stdev_of_sq_zero rfl
  · intro res res' s hds
    rw [stepStat_dead res s hds, stepStat_dead res' s hds]

/-- Witness for the amended C3: one dead slot, one cycle. -/
theorem mtr_dead_hop_amended_witness :
    ((1 : ℤ) ≤ 1 ∧ ([(⟨1, "*"⟩ : MtrHop)])[0]? = some ⟨1, "*"⟩ ∧
      ((⟨1, "*"⟩ : MtrHop).ip = "" ∨ (⟨1, "*"⟩ : MtrHop).ip = "*")) ∧
    (∃ f, (mtrFinal [⟨1, "*"⟩] 1 envFail)[0]? = some f ∧ f.loss = 100 ∧ f.avg = 0 ∧
      f.best = 0 ∧ f.worst = 0 ∧ f.stdevSq = 0 ∧ f.stdev = 0) := by
  refine ⟨⟨le_refl 1, rfl, Or.inr rfl⟩, ?_⟩
  exact (mtr_dead_hop_amended [⟨1, "*"⟩] envFail 1 0 ⟨1, "*"⟩ (le_refl 1) rfl
    (Or.inr rfl)).2.1

theorem popVariance_singleton (r : ℚ) : popVariance [r] = 0 := by
  rw [popVariance, listMean]
  norm_num

theorem exec_scn_10 : executePing (mkPingOut "10") = ⟨true, some 10⟩ := by
  have h1 : executePing (mkPingOut "10") = ⟨true, some (msVal ['1', '0'] [])⟩ := rfl
  have h2 : msVal ['1', '0'] [] = 10 := by
    have hd : digitsToNat ['1', '0'] = 10 := by decide
    simp [msVal, hd]
  rw [h1, h2]

theorem exec_scn_12 : executePing (mkPingOut "12") = ⟨true, some 12⟩ := by
  have h1 : executePing (mkPingOut "12") = ⟨true, some (msVal ['1', '2'] [])⟩ := rfl
  have h2 : msVal ['1', '2'] [] = 12 := by
    have hd : digitsToNat ['1', '2'] = 12 := by decide
    simp [msVal, hd]
  rw [h1, h2]

theorem exec_scn_14 : executePing (mkPingOut "14") = ⟨true, some 14⟩ := by
  have h1 : executePing (mkPingOut "14") = ⟨true, some (msVal ['1', '4'] [])⟩ := rfl
  have h2 : msVal ['1', '4'] [] = 14 := by
    have hd : digitsToNat ['1', '4'] = 14 := by decide
    simp [msVal, hd]
  rw [h1, h2]

theorem scnA1 : statAfter envScn 0 ⟨1, "10.0.0.1"⟩ 1 =
    ⟨1, "10.0.0.1", 1, 1, [10], some 10, 10, 10, 10, 0, 0, false⟩ := by
  show stepStat (executePing (envScn (((0 : ℕ) : ℤ) + 1) 0))
    (statAfter envScn 0 ⟨1, "10.0.0.1"⟩ 0) = _
  rw [show envScn (((0 : ℕ) : ℤ) + 1) 0 = mkPingOut "10" from rfl, exec_scn_10]
  show stepStat _ (initStat ⟨1, "10.0.0.1"⟩) = _
  rw [stepStat_alive 10 _ (by decide)]
  simp [initStat, calculateStDevSq]

theorem scnA2 : statAfter envScn 0 ⟨1, "10.0.0.1"⟩ 2 =
    ⟨1, "10.0.0.1", 2, 2, [10, 12], some 10, 12, 22, 11, 0, 1, false⟩ := by
  show stepStat (executePing (envScn (((1 : ℕ) : ℤ) + 1) 0))
    (statAfter envScn 0 ⟨1, "10.0.0.1"⟩ 1) = _
  rw [show envScn (((1 : ℕ) : ℤ) + 1) 0 = mkPingOut "12" from rfl, exec_scn_12]
  rw [scnA1, stepStat_alive 12 _ rfl]
  simp [calculateStDevSq]
  norm_num

theorem scnB1 : statAfter envScn 1 ⟨2, "8.8.8.8"⟩ 1 =
    ⟨2, "8.8.8.8", 1, 1, [10], some 10, 10, 10, 10, 0, 0, false⟩ := by
  show stepStat (executePing (envScn (((0 : ℕ) : ℤ) + 1) 1))
    (statAfter envScn 1 ⟨2, "8.8.8.8"⟩ 0) = _
  rw [show envScn (((0 : ℕ) : ℤ) + 1) 1 = mkPingOut "10" from rfl, exec_scn_10]
  show stepStat _ (initStat ⟨2, "8.8.8.8"⟩) = _
  rw [stepStat_alive 10 _ (by decide)]
  simp [initStat, calculateStDevSq]

theorem scnB2 : statAfter envScn 1 ⟨2, "8.8.8.8"⟩ 2 =
    ⟨2, "8.8.8.8", 2, 2, [10, 14], some 10, 14, 24, 12, 0, 4, false⟩ := by
  show stepStat (executePing (envScn (((1 : ℕ) : ℤ) + 1) 1))
    (statAfter envScn 1 ⟨2, "8.8.8.8"⟩ 1) = _
  rw [show envScn (((1 : ℕ) : ℤ) + 1) 1 = mkPingOut "14" from rfl, exec_scn_14]
  rw [scnB1, stepStat_alive 14 _ rfl]
  simp [calculateStDevSq]
  norm_num

theorem scnRaw : mtrRawStats hopsScn 2 envScn =
    [⟨1, "10.0.0.1", 2, 2, [10, 12], some 10, 12, 22, 11, 0, 1, false⟩,
     ⟨2, "8.8.8.8", 2, 2, [10, 14], some 10, 14, 24, 12, 0, 4, false⟩] := by
  rw [mtrRawStats_eq]
  refine List.ext_getElem? fun i => ?_
  rw [show (2 : ℤ).toNat = 2 from rfl, iterCycles_getElem]
  match i with
  | 0 =>
    rw [show hopsScn[0]? = some ⟨1, "10.0.0.1"⟩ from rfl, Option.map_some']
    rw [scnA2]
    rfl
  | 1 =>
    rw [show hopsScn[1]? = some ⟨2, "8.8.8.8"⟩ from rfl, Option.map_some']
    rw [scnB2]
    rfl
  | (n + 2) =>
    rw [show hopsScn[n + 2]? = none by cases n <;> rfl, Option.map_none']
    rfl

/-- C1: every final statistics record satisfies `received = N` (the number of
collected samples), `avg = (r1 + ... + rN) / N` for `N ≥ 1`, and
`stdev² = population variance` (dividing by `N`, not `N - 1`), with
`stdev = 0` for fewer than two samples; and in the documented two-hop,
two-cycle scenario with samples `[10, 12]` and `[10, 14]` the final rows
report `avg = 11` and `12`, `stdev = 1.0` and `2.0`, `loss = 0` for both. -/
theorem mtr_stats_formulas :
    (∀ (hops : List MtrHop) (env : ℤ → ℕ → RawOutcome) (cycles : ℤ) (s : HopStat),
      s ∈ mtrRawStats hops cycles env →
        s.received = s.rtts.length ∧
        (1 ≤ s.received → s.avg = listMean s.rtts ∧ s.stdevSq = popVariance s.rtts) ∧
        (s.rtts.length < 2 → s.stdevSq = 0)) ∧
    (mtrFinal hopsScn 2 envScn).map (fun f => (f.host, f.loss, f.avg)) =
      [("10.0.0.1", 0, 11), ("8.8.8.8", 0, 12)] ∧
    (mtrFinal hopsScn 2 envScn).map FinalStat.stdev = [(1 : ℝ), 2] := by
  have hgen : ∀ (hops : List MtrHop) (env : ℤ → ℕ → RawOutcome) (cycles : ℤ)
      (s : HopStat), s ∈ mtrRawStats hops cycles env →
        s.received = s.rtts.length ∧
        (1 ≤ s.received → s.avg = listMean s.rtts ∧ s.stdevSq = popVariance s.rtts) ∧
        (s.rtts.length < 2 → s.stdevSq = 0) := by
    intro hops env cycles s hs
    rw [mtrRawStats_eq] at hs
    obtain ⟨i, h, _, rfl⟩ := mem_iterCycles.mp hs
    obtain ⟨_, h2, h3, h4, h5, _, _, _⟩ := statAfter_invCore env i h cycles.toNat
    set s := statAfter env i h cycles.toNat
    refine ⟨h3, ?_, ?_⟩
    · intro hr
      obtain ⟨havg, hsd⟩ := h4 hr
      have hmean : s.avg = listMean s.rtts := by
        rw [havg, h2, h3, listMean]
      refine ⟨hmean, ?_⟩
      rcases Nat.lt_or_ge s.rtts.length 2 with hlen | hlen
      · have hlen1 : s.rtts.length = 1 := by omega
        obtain ⟨r, hr1⟩ := List.length_eq_one.mp hlen1
        rw [hsd, calculateStDevSq, if_pos hlen, hr1, popVariance_singleton]
      · rw [hsd, calculateStDevSq, if_neg (by omega), hmean, popVariance]
    · intro hlen
      rcases Nat.eq_zero_or_pos s.received with hr0 | hrpos
      · exact (h5 hr0).2.2.2.1
      · exact (h4 hrpos).2.trans (by rw [calculateStDevSq, if_pos hlen])
  refine ⟨hgen, ?_, ?_⟩
  · rw [mtrFinal_eq, scnRaw]
    have h11 : round1 11 = 11 := by simpa using round1_natCast 11
    have h12 : round1 12 = 12 := by simpa using round1_natCast 12
    simp [finalOfStat, round1_zero, h11, h12]
  · rw [mtrFinal_eq, scnRaw]
    have hs1 : round1r (Real.sqrt (((1 : ℚ) : ℝ))) = 1 := by
      rw [Rat.cast_one, Real.sqrt_one, round1r_one]
    have hs2 : round1r (Real.sqrt (((4 : ℚ) : ℝ))) = 2 := by
      rw [show (((4 : ℚ) : ℝ)) = (2 : ℝ) ^ 2 by norm_num,
        Real.sqrt_sq (by norm_num : (0 : ℝ) ≤ 2), round1r_two]
    simp only [List.map_cons, List.map_nil]
    rw [show FinalStat.stdev (finalOfStat ⟨1, "10.0.0.1", 2, 2, [10, 12], some 10, 12, 22, 11, 0, 1, false⟩) =
        round1r (Real.sqrt (((1 : ℚ) : ℝ))) from rfl]
    rw [show FinalStat.stdev (finalOfStat ⟨2, "8.8.8.8", 2, 2, [10, 14], some 10, 14, 24, 12, 0, 4, false⟩) =
        round1r (Real.sqrt (((4 : ℚ) : ℝ))) from rfl]
    rw [hs1, hs2]

/-- Witness for C1's general part: hop 0 of the scenario after the full run
has `received = 2` samples and mean 11. -/
theorem mtr_stats_formulas_witness :
    (statAfter envScn 0 ⟨1, "10.0.0.1"⟩ 2 ∈ mtrRawStats hopsScn 2 envScn ∧
      1 ≤ (statAfter envScn 0 ⟨1, "10.0.0.1"⟩ 2).received) ∧
    (statAfter envScn 0 ⟨1, "10.0.0.1"⟩ 2).received =
      (statAfter envScn 0 ⟨1, "10.0.0.1"⟩ 2).rtts.length ∧
    (statAfter envScn 0 ⟨1, "10.0.0.1"⟩ 2).avg =
      listMean (statAfter envScn 0 ⟨1, "10.0.0.1"⟩ 2).rtts := by
  have hmem : statAfter envScn 0 ⟨1, "10.0.0.1"⟩ 2 ∈ mtrRawStats hopsScn 2 envScn := by
    rw [mtrRawStats_eq]
    exact mem_iterCycles.mpr ⟨0, ⟨1, "10.0.0.1"⟩, rfl, rfl⟩
  have hr : 1 ≤ (statAfter envScn 0 ⟨1, "10.0.0.1"⟩ 2).received := by decide
  obtain ⟨hc1, hc2, _⟩ := mtr_stats_formulas.1 hopsScn envScn 2 _ hmem
  exact ⟨⟨hmem, hr⟩, hc1, (hc2 hr).1⟩

/-! ## Discovery lemmas -/

theorem probeHop_hop (o : RawOutcome) (ttl : ℕ) (t : String) :
    (probeHop o ttl t).hop = ttl := by
  cases o <;> rfl

theorem sweepFrom_pairwise (probe : ℕ → TraceRes) (target : String)
    (hp : ∀ t, (probe t).hop = t) :
    ∀ (fuel i : ℕ) (reached : Bool),
      (sweepFrom probe target fuel i reached).Pairwise (fun a b => a.hop < b.hop) ∧
      ∀ r ∈ sweepFrom probe target fuel i reached, i ≤ r.hop := by
  intro fuel
  induction fuel with
  | zero =>
    intro i reached
    simp [sweepFrom]
  | succ f ih =>
    intro i reached
    simp only [sweepFrom]
    split
    · split
      · simp
      · have hbatch : ∀ r ∈ (List.range' i (min (i + 9) 30 + 1 - i)).map probe,
            i ≤ r.hop ∧ r.hop < i + 10 := by
          intro r hr
          rcases List.mem_map.mp hr with ⟨t, ht, rfl⟩
          rw [hp t]
          have := List.mem_range'_1.mp ht
          omega
        have hpw : ((List.range' i (min (i + 9) 30 + 1 - i)).map probe).Pairwise
            (fun a b => a.hop < b.hop) := by
          rw [List.pairwise_map]
          refine (List.pairwise_lt_range' i _ 1).imp ?_
          intro a b hab
          rw [hp a, hp b]
          exact hab
        obtain ⟨ihpw, ihlb⟩ := ih (i + 10)
          (((List.range' i (min (i + 9) 30 + 1 - i)).map probe).any
            fun r => r.reached || r.ip == target)
        constructor
        · rw [List.pairwise_append]
          refine ⟨hpw, ihpw, ?_⟩
          intro a ha b hb
          have h1 := (hbatch a ha).2
          have h2 := ihlb b hb
          omega
        · intro r hr
          rcases List.mem_append.mp hr with h | h
          · exact (hbatch r h).1
          · have := ihlb r h
            omega
    · simp

theorem sweepFrom_mem (probe : ℕ → TraceRes) (target : String) :
    ∀ (fuel i : ℕ) (reached : Bool) (r : TraceRes),
      r ∈ sweepFrom probe target fuel i reached → ∃ t, r = probe t := by
  intro fuel
  induction fuel with
  | zero =>
    intro i reached r hr
    simp [sweepFrom] at hr
  | succ f ih =>
    intro i reached r hr
    simp only [sweepFrom] at hr
    rcases Decidable.em (i ≤ 30) with hi | hi
    · rw [if_pos hi] at hr
      rcases Decidable.em (reached = true) with hrc | hrc
      · simp [hrc] at hr
      · rw [if_neg hrc] at hr
        rcases List.mem_append.mp hr with h | h
        · rcases List.mem_map.mp h with ⟨t, _, rfl⟩
          exact ⟨t, rfl⟩
        · exact ih _ _ r h
    · rw [if_neg hi] at hr
      simp at hr

theorem truncAtTarget_sublist (t : String) :
    ∀ l : List TraceRes, List.Sublist (truncAtTarget t l) l := by
  intro l
  induction l with
  | nil => simp [truncAtTarget]
  | cons h tl ih =>
    rw [truncAtTarget]
    split
    · exact List.cons_sublist_cons.mpr (List.nil_sublist tl)
    · exact List.cons_sublist_cons.mpr ih

theorem truncAtTarget_count (t : String) :
    ∀ l : List TraceRes, ((truncAtTarget t l).map TraceRes.ip).count t ≤ 1 := by
  intro l
  induction l with
  | nil => simp [truncAtTarget]
  | cons h tl ih =>
    rw [truncAtTarget]
    split
    · next heq => simp [heq]
    · next hne =>
      simp only [List.map_cons, List.count_cons]
      have hbe : (h.ip == t) = false := by simpa using hne
      simp [hbe]
      exact ih

theorem truncAtTarget_last (t : String) :
    ∀ l : List TraceRes, t ∈ (truncAtTarget t l).map TraceRes.ip →
      ∃ r, (truncAtTarget t l).getLast? = some r ∧ r.ip = t := by
  intro l
  induction l with
  | nil => simp [truncAtTarget]
  | cons h tl ih =>
    intro hmem
    by_cases heq : h.ip = t
    · rw [truncAtTarget, if_pos heq]
      exact ⟨h, rfl, heq⟩
    · rw [truncAtTarget, if_neg heq] at hmem ⊢
      simp only [List.map_cons, List.mem_cons] at hmem
      rcases hmem with hx | hmem
      · exact absurd hx.symm heq
      · obtain ⟨r, hr, hip⟩ := ih hmem
        cases htr : truncAtTarget t tl with
        | nil =>
          rw [htr] at hr
          simp at hr
        | cons x xs =>
          rw [htr] at hr
          rw [List.getLast?_cons_cons]
          exact ⟨r, hr, hip⟩

/-- C4: every discovered hop list has strictly ascending hop indices (hence
no duplicate index), contains the destination address at most once, and when
the destination occurs it occurs exactly once, as the last element. -/
theorem hoplist_invariant (outcomes : ℕ → RawOutcome) (targetIP : String) :
    (runTraceroute outcomes targetIP).Pairwise (fun a b => a.hop < b.hop) ∧
    ((runTraceroute outcomes targetIP).map TraceRes.ip).count targetIP ≤ 1 ∧
    (targetIP ∈ (runTraceroute outcomes targetIP).map TraceRes.ip →
      ∃ r, (runTraceroute outcomes targetIP).getLast? = some r ∧ r.ip = targetIP ∧
        ((runTraceroute outcomes targetIP).map TraceRes.ip).count targetIP = 1) := by
  have hp : ∀ t, ((fun ttl => probeHop (outcomes ttl) ttl targetIP) t).hop = t :=
    fun t => probeHop_hop _ _ _
  have hsweep := sweepFrom_pairwise (fun ttl => probeHop (outcomes ttl) ttl targetIP)
    targetIP hp 30 1 false
  have hfilt : ((sweepFrom (fun ttl => probeHop (outcomes ttl) ttl targetIP) targetIP
      30 1 false).filter fun r => r.ip ≠ "*").Pairwise (fun a b => a.hop < b.hop) :=
    List.Pairwise.sublist (List.filter_sublist _) hsweep.1
  have hms : ((sweepFrom (fun ttl => probeHop (outcomes ttl) ttl targetIP) targetIP
        30 1 false).filter fun r => r.ip ≠ "*").mergeSort (fun a b => a.hop ≤ b.hop) =
      (sweepFrom (fun ttl => probeHop (outcomes ttl) ttl targetIP) targetIP
        30 1 false).filter fun r => r.ip ≠ "*" := by
    refine List.mergeSort_of_sorted (hfilt.imp ?_)
    intro a b hab
    simpa using Nat.le_of_lt hab
  have hrun : runTraceroute outcomes targetIP =
      truncAtTarget targetIP
        (((sweepFrom (fun ttl => probeHop (outcomes ttl) ttl targetIP) targetIP
          30 1 false).filter fun r => r.ip ≠ "*").mergeSort fun a b => a.hop ≤ b.hop) :=
    rfl
  refine ⟨?_, ?_, ?_⟩
  · rw [hrun, hms]
    exact List.Pairwise.sublist (truncAtTarget_sublist _ _) hfilt
  · rw [hrun]
    exact truncAtTarget_count _ _
  · intro hmem
    rw [hrun] at hmem ⊢
    obtain ⟨r, hr, hip⟩ := truncAtTarget_last _ _ hmem
    refine ⟨r, hr, hip, ?_⟩
    have h1 : 0 < ((truncAtTarget targetIP _).map TraceRes.ip).count targetIP :=
      List.count_pos_iff.mpr hmem
    have h2 := truncAtTarget_count targetIP
      (((sweepFrom (fun ttl => probeHop (outcomes ttl) ttl targetIP) targetIP
        30 1 false).filter fun r => r.ip ≠ "*").mergeSort fun a b => a.hop ≤ b.hop)
    omega

/-- Witness for C4: a discovery run in which the destination answers at
TTL 2. -/
theorem hoplist_invariant_witness :
    "9.9.9.9" ∈ (runTraceroute envTrace "9.9.9.9").map TraceRes.ip ∧
    (∃ r, (runTraceroute envTrace "9.9.9.9").getLast? = some r ∧ r.ip = "9.9.9.9" ∧
      ((runTraceroute envTrace "9.9.9.9").map TraceRes.ip).count "9.9.9.9" = 1) := by
  have hfilt : (sweepFrom (fun ttl => probeHop (envTrace ttl) ttl "9.9.9.9") "9.9.9.9"
      30 1 false).filter (fun r => r.ip ≠ "*") =
      [⟨1, "10.0.0.1", false⟩, ⟨2, "9.9.9.9", true⟩] := by decide
  have hrun : runTraceroute envTrace "9.9.9.9" =
      [⟨1, "10.0.0.1", false⟩, ⟨2, "9.9.9.9", true⟩] := by
    show truncAtTarget "9.9.9.9"
      (((sweepFrom (fun ttl => probeHop (envTrace ttl) ttl "9.9.9.9") "9.9.9.9"
        30 1 false).filter fun r => r.ip ≠ "*").mergeSort fun a b => a.hop ≤ b.hop) = _
    rw [hfilt, List.mergeSort_of_sorted (by decide)]
    decide
  have hmem : "9.9.9.9" ∈ (runTraceroute envTrace "9.9.9.9").map TraceRes.ip := by
    rw [hrun]
    decide
  exact ⟨hmem, (hoplist_invariant envTrace "9.9.9.9").2.2 hmem⟩

/-- C9: a probe process that fails to start is classified dead and never
surfaces as an error: `executePing` resolves `{alive: false, time: null}`,
the TTL probe resolves a `'*'` non-entry, the failing TTL contributes no hop
to the discovered list, and during aggregation a dead probe result counts as
loss (`received` unchanged) while still consuming the attempt. -/
theorem probe_failure_is_dead :
    executePing .startFailure = ⟨false, none⟩ ∧
    (∀ (ttl : ℕ) (target : String), probeHop .startFailure ttl target = ⟨ttl, "*", false⟩) ∧
    (∀ (outcomes : ℕ → RawOutcome) (target : String) (ttl : ℕ),
      outcomes ttl = .startFailure →
        ∀ r ∈ runTraceroute outcomes target, r.hop ≠ ttl) ∧
    (∀ s : HopStat, s.isDead = false →
      (stepStat ⟨false, none⟩ s).received = s.received ∧
      (stepStat ⟨false, none⟩ s).sent = s.sent + 1) := by
  refine ⟨rfl, fun _ _ => rfl, ?_, ?_⟩
  · intro outcomes target ttl hfail r hr
    intro hhop
    have hr1 : r ∈ ((sweepFrom (fun t => probeHop (outcomes t) t target) target
        30 1 false).filter fun x => x.ip ≠ "*").mergeSort (fun a b => a.hop ≤ b.hop) :=
      (truncAtTarget_sublist target _).subset hr
    have hr2 : r ∈ (sweepFrom (fun t => probeHop (outcomes t) t target) target
        30 1 false).filter fun x => x.ip ≠ "*" := List.mem_mergeSort.mp hr1
    have hstar : r.ip ≠ "*" := by
      have := List.of_mem_filter hr2
      simpa using this
    have hr3 : r ∈ sweepFrom (fun t => probeHop (outcomes t) t target) target 30 1 false :=
      List.mem_of_mem_filter hr2
    obtain ⟨t, rfl⟩ := sweepFrom_mem _ _ 30 1 false r hr3
    have ht : t = ttl := by
      have := probeHop_hop (outcomes t) t target
      omega
    subst ht
    rw [hfail] at hstar
    exact hstar rfl
  · intro s hd
    constructor
    · by_cases hrc : 0 < s.received <;> simp [stepStat, hd, hrc]
    · exact stepStat_sent _ s

/-- Witness for C9: the probe at TTL 1 fails to start, so no hop with index
1 appears in the discovered list. -/
theorem probe_failure_is_dead_witness :
    envTraceFail 1 = .startFailure ∧
    ∀ r ∈ runTraceroute envTraceFail "9.9.9.9", r.hop ≠ 1 := by
  exact ⟨rfl, probe_failure_is_dead.2.2.1 envTraceFail "9.9.9.9" 1 rfl⟩

/-- C6: the façade's destination repair appends exactly one synthetic final
hop `{hop: lastIndex + 1 (or 1 when empty), ip: target}` when the discovered
list is empty or does not end in the target, leaves the list unchanged
otherwise, and consequently the destination address is always the last
entry of the list handed to aggregation. -/
theorem forceTargetAppend_spec :
    (∀ target : String, forceTargetAppend [] target = [⟨1, target⟩]) ∧
    (∀ (hops : List MtrHop) (target : String) (last : MtrHop),
      hops.getLast? = some last → last.ip ≠ target →
        forceTargetAppend hops target = hops ++ [⟨last.hop + 1, target⟩]) ∧
    (∀ (hops : List MtrHop) (target : String) (last : MtrHop),
      hops.getLast? = some last → last.ip = target →
        forceTargetAppend hops target = hops) ∧
    (∀ (hops : List MtrHop) (target : String),
      ∃ h, (forceTargetAppend hops target).getLast? = some h ∧ h.ip = target) ∧
    (∀ (outcomes : ℕ → RawOutcome) (target : String),
      ∃ h, (diagnoseHops outcomes target).getLast? = some h ∧ h.ip = target) := by
  have happend : ∀ (hops : List MtrHop) (target : String),
      ∃ h, (forceTargetAppend hops target).getLast? = some h ∧ h.ip = target := by
    intro hops target
    rw [forceTargetAppend]
    cases hlast : hops.getLast? with
    | none =>
      exact ⟨⟨0 + 1, target⟩, List.getLast?_concat _, rfl⟩
    | some last =>
      dsimp only
      by_cases hip : last.ip = target
      · rw [if_neg (not_not_intro hip)]
        exact ⟨last, hlast, hip⟩
      · rw [if_pos hip]
        exact ⟨⟨last.hop + 1, target⟩, List.getLast?_concat _, rfl⟩
  refine ⟨fun _ => rfl, ?_, ?_, happend, fun outcomes target => happend _ _⟩
  · intro hops target last hlast hne
    rw [forceTargetAppend, hlast]
    dsimp only
    rw [if_pos hne]
  · intro hops target last hlast hip
    rw [forceTargetAppend, hlast]
    dsimp only
    rw [if_neg (not_not_intro hip)]

/-- Witness for C6: a one-hop list not ending in the target gains the
synthetic hop `⟨4, target⟩`. -/
theorem forceTargetAppend_spec_witness :
    (([(⟨3, "10.0.0.1"⟩ : MtrHop)]).getLast? = some ⟨3, "10.0.0.1"⟩ ∧
      (⟨3, "10.0.0.1"⟩ : MtrHop).ip ≠ "9.9.9.9") ∧
    forceTargetAppend [⟨3, "10.0.0.1"⟩] "9.9.9.9" =
      [⟨3, "10.0.0.1"⟩] ++ [⟨4, "9.9.9.9"⟩] := by
  have hne : (⟨3, "10.0.0.1"⟩ : MtrHop).ip ≠ "9.9.9.9" := by decide
  exact ⟨⟨rfl, hne⟩,
    forceTargetAppend_spec.2.1 [⟨3, "10.0.0.1"⟩] "9.9.9.9" ⟨3, "10.0.0.1"⟩ rfl hne⟩

/-! ## The RTT matcher agrees with its declarative reading -/

theorem tw_dw_append {α : Type} (p : α → Bool) (l₁ l₂ : List α)
    (h₁ : ∀ c ∈ l₁, p c = true)
    (h₂ : ∀ c, l₂.head? = some c → p c = false) :
    (l₁ ++ l₂).takeWhile p = l₁ ∧ (l₁ ++ l₂).dropWhile p = l₂ := by
  induction l₁ with
  | nil =>
    simp only [List.nil_append]
    cases l₂ with
    | nil => simp
    | cons c cs =>
      have hc := h₂ c rfl
      simp [List.takeWhile_cons, List.dropWhile_cons, hc]
  | cons a l ih =>
    have ha : p a = true := h₁ a (by simp)
    have ih' := ih fun c hc => h₁ c (by simp [hc])
    simp [List.takeWhile_cons, List.dropWhile_cons, ha, ih'.1, ih'.2]

theorem isWsChar_elim {c : Char} (h : isWsChar c = true) :
    c = ' ' ∨ c = '\t' ∨ c = '\n' ∨ c = '\r' ∨ c = '\x0b' ∨ c = '\x0c' := by
  rw [isWsChar] at h
  simp only [Bool.or_eq_true, beq_iff_eq] at h
  tauto

theorem ws_not_digit {c : Char} (h : isWsChar c = true) : c.isDigit = false := by
  rcases isWsChar_elim h with rfl | rfl | rfl | rfl | rfl | rfl <;> decide

theorem ws_ne_dot {c : Char} (h : isWsChar c = true) : c ≠ '.' := by
  rcases isWsChar_elim h with rfl | rfl | rfl | rfl | rfl | rfl <;> decide

theorem emm_not_digit {m : Char} (h : m = 'm' ∨ m = 'M') : m.isDigit = false := by
  rcases h with rfl | rfl <;> decide

theorem emm_not_ws {m : Char} (h : m = 'm' ∨ m = 'M') : isWsChar m = false := by
  rcases h with rfl | rfl <;> decide

theorem emm_ne_dot {m : Char} (h : m = 'm' ∨ m = 'M') : m ≠ '.' := by
  rcases h with rfl | rfl <;> decide

theorem matchMsAt_complete {l : List Char} {q : ℚ} (h : MsValAt l q) :
    matchMsAt l = some q := by
  obtain ⟨d, m, s, ds, fs, ws, tail, rfl, hdelim, hds, hdig, hfs, hws, hm, hs, rfl⟩ := h
  have hdw : (ws ++ m :: s :: tail).dropWhile isWsChar = m :: s :: tail := by
    refine (tw_dw_append isWsChar ws (m :: s :: tail) hws ?_).2
    intro c hc
    simp only [List.head?_cons, Option.some.injEq] at hc
    subst hc
    exact emm_not_ws hm
  have hcond : ((m == 'm' || m == 'M') && (s == 's' || s == 'S')) = true := by
    rcases hm with rfl | rfl <;> rcases hs with rfl | rfl <;> rfl
  have hhead : ∀ c : Char, (fs ++ (ws ++ m :: s :: tail)).head? = some c →
      Char.isDigit c = false := by
    intro c hc
    rcases hfs with rfl | ⟨fs', rfl, _, _⟩
    · rw [List.nil_append] at hc
      cases ws with
      | nil =>
        simp only [List.nil_append, List.head?_cons, Option.some.injEq] at hc
        subst hc
        exact emm_not_digit hm
      | cons w ws' =>
        simp only [List.cons_append, List.head?_cons, Option.some.injEq] at hc
        subst hc
        exact ws_not_digit (hws w (by simp))
    · simp only [List.cons_append, List.head?_cons, Option.some.injEq] at hc
      subst hc
      decide
  have htd := tw_dw_append Char.isDigit ds (fs ++ (ws ++ m :: s :: tail)) hdig hhead
  have hassoc : ds ++ fs ++ ws ++ m :: s :: tail = ds ++ (fs ++ (ws ++ m :: s :: tail)) := by
    simp [List.append_assoc]
  simp only [matchMsAt]
  rw [if_pos hdelim, hassoc, htd.1, htd.2]
  rw [if_neg (by simp [List.isEmpty_iff, hds])]
  rcases hfs with rfl | ⟨fs', rfl, hne', hdig'⟩
  · -- no fraction part: the scrutinee starts with a whitespace or `m`,
    -- so the dot branch cannot fire
    rw [List.nil_append]
    have hfr : (match ws ++ m :: s :: tail with
        | '.' :: r2 =>
          if (r2.takeWhile Char.isDigit).isEmpty = true then
            (([] : List Char), ws ++ m :: s :: tail)
          else ('.' :: r2.takeWhile Char.isDigit, r2.dropWhile Char.isDigit)
        | _ => (([] : List Char), ws ++ m :: s :: tail)) =
        (([] : List Char), ws ++ m :: s :: tail) := by
      split
      · next r2 heq =>
        exfalso
        cases ws with
        | nil =>
          simp only [List.nil_append, List.cons.injEq] at heq
          exact emm_ne_dot hm heq.1
        | cons w ws' =>
          simp only [List.cons_append, List.cons.injEq] at heq
          exact ws_ne_dot (hws w (by simp)) heq.1
      · rfl
    rw [hfr]
    simp only
    rw [hdw]
    simp only
    rw [if_pos hcond]
  · -- fraction part `.fs'`
    have hhead' : ∀ c : Char, (ws ++ m :: s :: tail).head? = some c →
        Char.isDigit c = false := by
      intro c hc
      cases ws with
      | nil =>
        simp only [List.nil_append, List.head?_cons, Option.some.injEq] at hc
        subst hc
        exact emm_not_digit hm
      | cons w ws' =>
        simp only [List.cons_append, List.head?_cons, Option.some.injEq] at hc
        subst hc
        exact ws_not_digit (hws w (by simp))
    have htd' := tw_dw_append Char.isDigit fs' (ws ++ m :: s :: tail) hdig' hhead'
    rw [List.cons_append]
    simp only
    rw [htd'.1, htd'.2]
    rw [if_neg (by simp [List.isEmpty_iff, hne'])]
    simp only
    rw [hdw]
    simp only
    rw [if_pos hcond]

theorem cond_elim {m s : Char} (hcond : ((m == 'm' || m == 'M') && (s == 's' || s == 'S')) = true) :
    (m = 'm' ∨ m = 'M') ∧ (s = 's' ∨ s = 'S') := by
  simp only [Bool.and_eq_true, Bool.or_eq_true, beq_iff_eq] at hcond
  exact hcond

theorem matchMsAt_sound {l : List Char} {q : Rat} (h : matchMsAt l = some q) : MsValAt l q := by
  cases l with
  | nil => simp [matchMsAt] at h
  | cons c rest =>
    simp only [matchMsAt] at h
    by_cases hdelim : isDelimChar c = true
    case neg => rw [if_neg hdelim] at h; exact absurd h (by simp)
    rw [if_pos hdelim] at h
    by_cases hds : (rest.takeWhile Char.isDigit).isEmpty = true
    case pos => rw [if_pos hds] at h; exact absurd h (by simp)
    rw [if_neg hds] at h
    have hdsne : rest.takeWhile Char.isDigit ≠ [] := by
      simpa [List.isEmpty_iff] using hds
    have hdsdig : ∀ x ∈ rest.takeWhile Char.isDigit, Char.isDigit x = true :=
      fun x hx => List.mem_takeWhile_imp hx
    have hsplit : rest = rest.takeWhile Char.isDigit ++ rest.dropWhile Char.isDigit :=
      (List.takeWhile_append_dropWhile Char.isDigit rest).symm
    generalize hfr : (match List.dropWhile Char.isDigit rest with
      | '.' :: r2 =>
        if (List.takeWhile Char.isDigit r2).isEmpty = true then
          (([] : List Char), List.dropWhile Char.isDigit rest)
        else ('.' :: List.takeWhile Char.isDigit r2, List.dropWhile Char.isDigit r2)
      | x => (([] : List Char), List.dropWhile Char.isDigit rest)) = fr at h
    split at hfr
    case _ r2 hr2 =>
      split at hfr
      case _ hfse =>
        -- dot present but no fraction digits: the classifier must then see the
        -- dot where `m` is expected, contradicting the final check
        subst hfr
        dsimp only at h
        split at h
        case _ m s tail heq =>
          split at h
          case _ hcond =>
            exfalso
            rw [hr2, List.dropWhile_cons] at heq
            rw [if_neg (by decide)] at heq
            obtain ⟨hm, _⟩ := cond_elim hcond
            have hmdot : ('.' : Char) = m := (List.cons_eq_cons.mp heq).1
            exact absurd hmdot.symm (emm_ne_dot hm)
          case _ => exact absurd h (by simp)
        case _ => exact absurd h (by simp)
      case _ hfse =>
        subst hfr
        dsimp only at h
        split at h
        case _ m s tail heq =>
          split at h
          case _ hcond =>
            rw [Option.some.injEq] at h
            obtain ⟨hm, hs⟩ := cond_elim hcond
            refine ⟨c, m, s, rest.takeWhile Char.isDigit,
              '.' :: List.takeWhile Char.isDigit r2,
              (List.dropWhile Char.isDigit r2).takeWhile isWsChar, tail, ?_, hdelim,
              hdsne, hdsdig, Or.inr ⟨_, rfl, by simpa [List.isEmpty_iff] using hfse,
                fun x hx => List.mem_takeWhile_imp hx⟩,
              fun x hx => List.mem_takeWhile_imp hx, hm, hs, h.symm⟩
            have hr3 : List.dropWhile Char.isDigit r2 =
                (List.dropWhile Char.isDigit r2).takeWhile isWsChar ++ m :: s :: tail := by
              conv_lhs => rw [← List.takeWhile_append_dropWhile isWsChar
                (List.dropWhile Char.isDigit r2)]
              rw [heq]
            have hr2' : r2 = List.takeWhile Char.isDigit r2 ++
                List.dropWhile Char.isDigit r2 :=
              (List.takeWhile_append_dropWhile Char.isDigit r2).symm
            conv_lhs => rw [hsplit, hr2, hr2', hr3]
            simp [List.append_assoc]
          case _ => exact absurd h (by simp)
        case _ => exact absurd h (by simp)
    case _ junk hnotdot =>
      subst hfr
      dsimp only at h
      split at h
      case _ m s tail heq =>
        split at h
        case _ hcond =>
          rw [Option.some.injEq] at h
          obtain ⟨hm, hs⟩ := cond_elim hcond
          refine ⟨c, m, s, rest.takeWhile Char.isDigit, [],
            (List.dropWhile Char.isDigit rest).takeWhile isWsChar, tail, ?_, hdelim,
            hdsne, hdsdig, Or.inl rfl,
            fun x hx => List.mem_takeWhile_imp hx, hm, hs, h.symm⟩
          have hr3 : List.dropWhile Char.isDigit rest =
              (List.dropWhile Char.isDigit rest).takeWhile isWsChar ++ m :: s :: tail := by
            conv_lhs => rw [← List.takeWhile_append_dropWhile isWsChar
              (List.dropWhile Char.isDigit rest)]
            rw [heq]
          conv_lhs => rw [hsplit, hr3]
          simp [List.append_assoc]
        case _ => exact absurd h (by simp)
      case _ => exact absurd h (by simp)


theorem findMs_none_iff : ∀ l : List Char,
    findMs l = none ↔ ∀ i : ℕ, matchMsAt (l.drop i) = none := by
  intro l
  induction l with
  | nil =>
    simp [findMs, matchMsAt]
  | cons c rest ih =>
    rw [findMs]
    constructor
    · intro h i
      cases hm : matchMsAt (c :: rest) with
      | some q =>
        rw [hm] at h
        exact absurd h (by simp)
      | none =>
        rw [hm] at h
        cases i with
        | zero => simpa using hm
        | succ i' =>
          rw [List.drop_succ_cons]
          exact (ih.mp (by simpa using h)) i'
    · intro h
      have h0 := h 0
      rw [List.drop_zero] at h0
      rw [h0]
      exact ih.mpr fun i => by simpa using h (i + 1)

theorem findMs_some_iff : ∀ (l : List Char) (q : ℚ),
    findMs l = some q ↔
      ∃ i : ℕ, matchMsAt (l.drop i) = some q ∧
        ∀ j : ℕ, j < i → matchMsAt (l.drop j) = none := by
  intro l
  induction l with
  | nil =>
    intro q
    simp [findMs, matchMsAt]
  | cons c rest ih =>
    intro q
    rw [findMs]
    cases hm : matchMsAt (c :: rest) with
    | some q' =>
      constructor
      · intro h
        refine ⟨0, ?_, fun j hj => absurd hj (Nat.not_lt_zero j)⟩
        rw [List.drop_zero, hm]
        simpa using h
      · rintro ⟨i, hi, hlt⟩
        cases i with
        | zero =>
          rw [List.drop_zero, hm] at hi
          simpa using hi
        | succ i' =>
          have := hlt 0 (Nat.succ_pos i')
          rw [List.drop_zero, hm] at this
          exact absurd this (by simp)
    | none =>
      constructor
      · intro h
        obtain ⟨i, hi, hlt⟩ := (ih q).mp h
        refine ⟨i + 1, by simpa using hi, ?_⟩
        intro j hj
        cases j with
        | zero => simpa using hm
        | succ j' =>
          rw [List.drop_succ_cons]
          exact hlt j' (by omega)
      · rintro ⟨i, hi, hlt⟩
        cases i with
        | zero =>
          rw [List.drop_zero, hm] at hi
          exact absurd hi (by simp)
        | succ i' =>
          refine (ih q).mpr ⟨i', by simpa using hi, ?_⟩
          intro j hj
          have := hlt (j + 1) (by omega)
          simpa using this

theorem matchMsAt_none_iff (l : List Char) : matchMsAt l = none ↔ ¬ MsAt l := by
  constructor
  · rintro h ⟨q, hq⟩
    rw [matchMsAt_complete hq] at h
    exact absurd h (by simp)
  · intro h
    cases hm : matchMsAt l with
    | none => rfl
    | some q => exact absurd ⟨q, matchMsAt_sound hm⟩ h

/-- C7: a direct (non-TTL) probe is classified alive exactly when the raw
text contains a millisecond-value token (as characterized declaratively by
`MsAt`); the reported RTT is the value of the leftmost such token; a dead
classification carries no time; and the process exit code is ignored
entirely. -/
theorem executePing_classification (raw : String) (code : ℤ) :
    ((executePing (.output raw code)).alive = true ↔ ∃ i : ℕ, MsAt (raw.toList.drop i)) ∧
    (∀ q : ℚ, (executePing (.output raw code)).time = some q ↔
      ∃ i : ℕ, MsValAt (raw.toList.drop i) q ∧
        ∀ j : ℕ, j < i → ¬ MsAt (raw.toList.drop j)) ∧
    ((executePing (.output raw code)).alive = false →
      (executePing (.output raw code)).time = none) ∧
    (∀ code' : ℤ, executePing (.output raw code) = executePing (.output raw code')) := by
  have htime : (executePing (.output raw code)).time = findMs raw.toList := by
    rw [executePing]
    cases hf : findMs raw.toList <;> simp
  have halive : (executePing (.output raw code)).alive = true ↔
      findMs raw.toList ≠ none := by
    rw [executePing]
    cases hf : findMs raw.toList <;> simp
  refine ⟨?_, ?_, ?_, fun code' => rfl⟩
  · rw [halive]
    constructor
    · intro h
      cases hf : findMs raw.toList with
      | none => exact absurd hf h
      | some q =>
        obtain ⟨i, hi, _⟩ := (findMs_some_iff raw.toList q).mp hf
        exact ⟨i, q, matchMsAt_sound hi⟩
    · rintro ⟨i, q, hq⟩
      intro hf
      have := (findMs_none_iff raw.toList).mp hf i
      rw [matchMsAt_complete hq] at this
      exact absurd this (by simp)
  · intro q
    rw [htime, findMs_some_iff]
    constructor
    · rintro ⟨i, hi, hlt⟩
      exact ⟨i, matchMsAt_sound hi,
        fun j hj => (matchMsAt_none_iff _).mp (hlt j hj)⟩
    · rintro ⟨i, hi, hlt⟩
      exact ⟨i, matchMsAt_complete hi,
        fun j hj => (matchMsAt_none_iff _).mpr (hlt j hj)⟩
  · intro h
    rw [htime]
    rw [executePing] at h
    cases hf : findMs raw.toList with
    | none => rfl
    | some q =>
      rw [hf] at h
      simp at h

/-- Witness for C7 at a concrete ping transcript with a nonzero exit code:
`time=23ms` is found, so the probe is alive with RTT 23 regardless of the
code. -/
theorem executePing_classification_witness :
    (((executePing (.output "Reply from 8.8.8.8: bytes=32 time=23ms TTL=55" 1)).alive = true ↔
      ∃ i : ℕ, MsAt (("Reply from 8.8.8.8: bytes=32 time=23ms TTL=55").toList.drop i)) ∧
      executePing (.output "Reply from 8.8.8.8: bytes=32 time=23ms TTL=55" 1) =
        executePing (.output "Reply from 8.8.8.8: bytes=32 time=23ms TTL=55" 0)) ∧
    executePing (.output "Reply from 8.8.8.8: bytes=32 time=23ms TTL=55" 1) =
      ⟨true, some 23⟩ := by
  refine ⟨⟨(executePing_classification _ 1).1, (executePing_classification _ 1).2.2.2 0⟩, ?_⟩
  have h1 : executePing (.output "Reply from 8.8.8.8: bytes=32 time=23ms TTL=55" 1) =
      ⟨true, some (msVal ['2', '3'] [])⟩ := rfl
  have h2 : msVal ['2', '3'] [] = 23 := by
    have hd : digitsToNat ['2', '3'] = 23 := by decide
    simp [msVal, hd]
  rw [h1, h2]



/-- C8 as frozen is false in its `rttMs = 23` part, at a concrete input: the
TTL-probe classifier of `runTraceroute` maps outputs whose destination line
carries `time=23ms` and `time=999ms` to the *same* result `{ip, reached}` —
it extracts no RTT at all, so it cannot report `rttMs = 23` (the claim would
require different results for the two inputs). -/
theorem trace_classifier_counterexample :
    probeHop (.output "Reply from 8.8.8.8: bytes=32 time=23ms TTL=55" 0) 5 "8.8.8.8" =
      probeHop (.output "Reply from 8.8.8.8: bytes=32 time=999ms TTL=55" 0) 5 "8.8.8.8" ∧
    probeHop (.output "Reply from 8.8.8.8: bytes=32 time=23ms TTL=55" 0) 5 "8.8.8.8" =
      ⟨5, "8.8.8.8", true⟩ := by
  constructor <;> decide

theorem classifyScan_dest (target : String) (post : List (List Char)) (L : List Char)
    (hL : lineAddr L = some target) (hev : lineEvidence L = true) :
    ∀ pre : List (List Char),
      (∀ l ∈ pre, lineAddr l = none ∨ (lineAddr l = some target ∧ lineEvidence l = false)) →
      classifyScan target (pre ++ L :: post) = (target, true) := by
  intro pre
  induction pre with
  | nil =>
    intro _
    rw [List.nil_append, classifyScan, hL]
    dsimp only
    rw [if_neg (not_not_intro rfl), if_pos hev]
  | cons l pre' ih =>
    intro hpre
    rw [List.cons_append, classifyScan]
    rcases hpre l (by simp) with hnone | ⟨hsome, hnoev⟩
    · rw [hnone]
      exact ih fun x hx => hpre x (by simp [hx])
    · rw [hsome]
      dsimp only
      rw [if_neg (not_not_intro rfl), if_neg (by simp [hnoev])]
      exact ih fun x hx => hpre x (by simp [hx])

/-- C8, amended: if some line of a TTL-probe output yields the destination
address together with corroborating time/byte evidence on the same line, and
every earlier line yields either no address or the destination without
evidence, then the probe classifies as a destination reply
(`ip = target`, `reached = true`); the discovery classifier extracts no RTT
value (see the counterexample). -/
theorem trace_classifier_destination (target raw : String) (code : ℤ) (ttl : ℕ)
    (pre post : List (List Char)) (L : List Char)
    (hsplit : splitLines raw.toList = pre ++ L :: post)
    (hpre : ∀ l ∈ pre, lineAddr l = none ∨ (lineAddr l = some target ∧ lineEvidence l = false))
    (hL : lineAddr L = some target) (hev : lineEvidence L = true) :
    probeHop (.output raw code) ttl target = ⟨ttl, target, true⟩ := by
  show (⟨ttl, (classifyScan target (splitLines raw.toList)).1,
    (classifyScan target (splitLines raw.toList)).2⟩ : TraceRes) = _
  rw [hsplit, classifyScan_dest target post L hL hev pre hpre]

/-- Witness for the amended C8: a two-line transcript whose first line echoes
the destination address without evidence (a banner) and whose second line is
the destination reply with `time=23ms`. -/
theorem trace_classifier_destination_witness :
    (splitLines ("PING 8.8.8.8 56 bytes of data.\n64 bytes from 8.8.8.8: icmp_seq=1 ttl=55 time=23ms").toList =
      ["PING 8.8.8.8 56 bytes of data.".toList] ++
        "64 bytes from 8.8.8.8: icmp_seq=1 ttl=55 time=23ms".toList :: [] ∧
      lineAddr "64 bytes from 8.8.8.8: icmp_seq=1 ttl=55 time=23ms".toList = some "8.8.8.8" ∧
      lineEvidence "64 bytes from 8.8.8.8: icmp_seq=1 ttl=55 time=23ms".toList = true) ∧
    probeHop (.output "PING 8.8.8.8 56 bytes of data.\n64 bytes from 8.8.8.8: icmp_seq=1 ttl=55 time=23ms" 0)
      3 "8.8.8.8" = ⟨3, "8.8.8.8", true⟩ := by
  refine ⟨⟨by decide, by decide, by decide⟩, ?_⟩
  exact trace_classifier_destination "8.8.8.8" _ 0 3
    ["PING 8.8.8.8 56 bytes of data.".toList]
    [] "64 bytes from 8.8.8.8: icmp_seq=1 ttl=55 time=23ms".toList
    (by decide)
    (by
      intro l hl
      simp only [List.mem_singleton] at hl
      subst hl
      exact Or.inr ⟨by decide, by decide⟩)
    (by decide) (by decide)

end NetDiag
